import Mathlib

/-!
Verification development for the CME241-Assignment MRP/MDP library
(src/process/mrp.py and src/process/mdp.py).

Modelling conventions:
* Python dictionaries are modelled as insertion-ordered association lists
  (`List (K × V)`); `dictGet` is `dict.get` (first matching key),
  `dictUpdate` is `dict.update` with a single key (replace in place when the
  key exists, append otherwise), `dictKeys` is the iteration order of keys.
* Python floats are modelled as rationals (`ℚ`); the float literals used by
  the library (probabilities, rewards, the constant 1 compared against) are
  exact, and all comparisons in the source are plain equality tests.
* Raising an exception is modelled with `Except`; functions that cannot raise
  are pure.
* The numpy solver (`np.linalg.solve` / `np.linalg.lstsq`) is an external
  library; it is modelled as an abstract `SolveEnv` passed to the
  construction pipeline, together with a `PyErr` record carrying whether the
  raised error is a `LinAlgError` and its message, mirroring the
  `except np.linalg.LinAlgError` / `'Singular matrix' in str(err)` dispatch
  in `MRP._assign_value_function`.
-/

section PyDict

variable {K V W : Type} [DecidableEq K]

/-- Python `dict.get k` on an association list: value of the first matching
key, `none` when absent. -/
def dictGet : List (K × V) → K → Option V
  | [], _ => none
  | p :: d, k => if p.1 = k then some p.2 else dictGet d k

/-- Python `dict.get k default`. -/
def dictGetD (d : List (K × V)) (k : K) (v0 : V) : V :=
  (dictGet d k).getD v0

/-- Python `dict.update {k: v}`: replace the value in place when the key is
present, append the binding otherwise. -/
def dictUpdate : List (K × V) → K → V → List (K × V)
  | [], k, v => [(k, v)]
  | p :: d, k, v => if p.1 = k then (k, v) :: d else p :: dictUpdate d k v

/-- The keys of a dictionary in iteration order. -/
def dictKeys (d : List (K × V)) : List K :=
  d.map (·.1)

end PyDict

section PyFloat

/-- Python `round(x, 5)`: round to 5 decimal places, ties to even
(on our exact rationals). -/
def round5 (q : ℚ) : ℚ :=
  let n : ℚ := q * 100000
  let fl : ℤ := n.floor
  let r : ℤ :=
    if Rat.blt (1 / 2) (n - fl) then fl + 1
    else if Rat.blt (n - fl) (1 / 2) then fl
    else if fl % 2 = 0 then fl else fl + 1
  (r : ℚ) / 100000

/-- Whether `pat` is a prefix of `l` (over characters). -/
def isPrefixOfChars : List Char → List Char → Bool
  | [], _ => true
  | _ :: _, [] => false
  | c :: p, d :: l => (c = d) && isPrefixOfChars p l

/-- Whether `pat` occurs as a contiguous run inside `l`. -/
def charsContain (pat : List Char) : List Char → Bool
  | [] => isPrefixOfChars pat []
  | c :: rest => isPrefixOfChars pat (c :: rest) || charsContain pat rest

/-- Python `pat in s` substring test. -/
def strContains (s pat : String) : Bool :=
  charsContain pat.data s.data

/-- Decidable equality of `Except` results, for evaluating concrete
constructions. -/
instance exceptDecidableEq {E X : Type} [DecidableEq E] [DecidableEq X] :
    DecidableEq (Except E X) := fun x y =>
  match x, y with
  | .ok a, .ok b =>
    if h : a = b then isTrue (by rw [h]) else
      isFalse (fun he => h (by cases he; rfl))
  | .ok _, .error _ => isFalse (fun he => nomatch he)
  | .error _, .ok _ => isFalse (fun he => nomatch he)
  | .error e, .error f =>
    if h : e = f then isTrue (by rw [h]) else
      isFalse (fun he => h (by cases he; rfl))

/-- A Python exception as observed by `MRP._assign_value_function`:
whether it is an `np.linalg.LinAlgError`, and its message. -/
structure PyErr where
  isLinAlgError : Bool
  msg : String
deriving DecidableEq

/-- The external numpy linear-algebra collaborator: `np.linalg.solve`
(which may raise) and `np.linalg.lstsq` (returning the least-squares
solution). -/
structure SolveEnv where
  solve : List (List ℚ) → List ℚ → Except PyErr (List ℚ)
  lstsq : List (List ℚ) → List ℚ → List ℚ

end PyFloat

section MRPDefs

variable {S : Type} [DecidableEq S]

/-- The fine-grained-reward MRP input encoding `SSTff`:
source → {destination: (probability, reward)}. -/
abbrev SSTff (S : Type) := List (S × List (S × (ℚ × ℚ)))

/-- The shared-reward MRP input encoding `STSff`:
source → ({destination: probability}, scalar reward). -/
abbrev STSff (S : Type) := List (S × (List (S × ℚ) × ℚ))

/-- Terminality test of `MRP._categorize_states`, fine-grained branch:
`mrp_input.get(s).get(s) is not None and mrp_input.get(s).get(s)[0] == 1`. -/
def mrpCheckF (inp : SSTff S) (s : S) : Bool :=
  match dictGet inp s with
  | some row =>
    match dictGet row s with
    | some pr => decide (pr.1 = 1)
    | none => false
  | none => false

/-- Terminality test of `MRP._categorize_states`, shared-reward branch:
`mrp_input.get(s)[0].get(s, 0) == 1`. -/
def mrpCheckS (inp : STSff S) (s : S) : Bool :=
  match dictGet inp s with
  | some row => decide (dictGetD row.1 s 0 = 1)
  | none => false

/-- The classification loop of `MRP._categorize_states`: walk `all_states`
(the input's keys) and append each state to the terminal or the
non-terminal list according to `check`. -/
def mrpCategorizeWith (check : S → Bool) (keys : List S) : List S × List S :=
  keys.foldl
    (fun acc s => if check s then (acc.1 ++ [s], acc.2) else (acc.1, acc.2 ++ [s]))
    ([], [])

/-- `MRP._categorize_states` on the fine-grained encoding. -/
def mrpCategorizeF (inp : SSTff S) : List S × List S :=
  mrpCategorizeWith (mrpCheckF inp) (dictKeys inp)

/-- `MRP._categorize_states` on the shared-reward encoding. -/
def mrpCategorizeS (inp : STSff S) : List S × List S :=
  mrpCategorizeWith (mrpCheckS inp) (dictKeys inp)

/-- `MRP._assign_transition_matrix`, fine-grained branch: for each
non-terminal source build the probability row and the reward row from the
nested destination map. -/
def mrpAssignF (inp : SSTff S) (ntl : List S) :
    List (S × List (S × ℚ)) × List (S × List (S × ℚ)) :=
  ntl.foldl
    (fun acc s1 =>
      let row := dictGetD inp s1 []
      (dictUpdate acc.1 s1 (row.map fun q => (q.1, q.2.1)),
       dictUpdate acc.2 s1 (row.map fun q => (q.1, q.2.2))))
    ([], [])

/-- `MRP._assign_transition_matrix`, shared-reward branch: the probability
row is stored as given; the reward row maps every key of the whole input
(`for s2 in mrp_input`) to the source's scalar reward. -/
def mrpAssignS (inp : STSff S) (ntl : List S) :
    List (S × List (S × ℚ)) × List (S × List (S × ℚ)) :=
  ntl.foldl
    (fun acc s1 =>
      let row := dictGetD inp s1 ([], 0)
      (dictUpdate acc.1 s1 row.1,
       dictUpdate acc.2 s1 ((dictKeys inp).map fun s2 => (s2, row.2))))
    ([], [])

/-- `MRP._assign_reward_function`: for each source in the reward matrix,
the expected one-step reward `Σ_{s'} P(s,s')·R(s,s')` over the keys of the
transition row, rounded to 5 decimals. -/
def assignRewardFunction (stm rm : List (S × List (S × ℚ))) : List (S × ℚ) :=
  rm.foldl
    (fun acc p =>
      let srow := dictGetD stm p.1 []
      let rrow := dictGetD rm p.1 []
      let er := srow.foldl
        (fun e q => e + dictGetD srow q.1 0 * dictGetD rrow q.1 0) 0
      dictUpdate acc p.1 (round5 er))
    []

/-- The reward vector `R` of `MRP._assign_value_function`: the values of
the reward function in iteration order. -/
def rfValues (rf : List (S × ℚ)) : List ℚ :=
  rf.map (·.2)

/-- The matrix `I - γ·P` of `MRP._assign_value_function`, where
`P[i, j] = state_transition_matrix.get(non_terminal[i]).get(non_terminal[j], 0.0)`.
(The outer `get` cannot miss: the matrix rows are keyed exactly by the
non-terminal states.) -/
def bellmanA (γ : ℚ) (ntl : List S) (stm : List (S × List (S × ℚ))) :
    List (List ℚ) :=
  ntl.enum.map fun pi =>
    ntl.enum.map fun pj =>
      (if pi.1 = pj.1 then 1 else 0) - γ * dictGetD (dictGetD stm pi.2 []) pj.2 0

/-- The warning printed when the Bellman matrix is singular. -/
def singularWarning : String :=
  "matrix not invertible, will use least square, but most likely result may be incorrect"

/-- `MRP._assign_value_function`: solve `(I - γP) v = r`; on a
`LinAlgError` whose message contains 'Singular matrix', fall back to the
least-squares solution and record the warning; re-raise anything else.
Returns the value function (zipped against the non-terminal states, as the
`dict(zip(...))` in the source) together with the emitted warnings. -/
def assignValueFunction (env : SolveEnv) (γ : ℚ) (ntl : List S)
    (stm : List (S × List (S × ℚ))) (rf : List (S × ℚ)) :
    Except PyErr (List (S × ℚ) × List String) :=
  let R := rfValues rf
  let A := bellmanA γ ntl stm
  match env.solve A R with
  | .ok V => .ok (ntl.zip V, [])
  | .error e =>
    if e.isLinAlgError && strContains e.msg "Singular matrix" then
      .ok (ntl.zip (env.lstsq A R), [singularWarning])
    else
      .error e

/-- A constructed MRP object: the fields computed by `MRP.__init__`. -/
structure MRPModel (S : Type) where
  gamma : ℚ
  terminal_states : List S
  non_terminal_states : List S
  state_transition_matrix : List (S × List (S × ℚ))
  reward_matrix : List (S × List (S × ℚ))
  reward_function : List (S × ℚ)
  value_function : List (S × ℚ)
  warnings : List String
deriving DecidableEq

/-- `MRP.__init__` on the fine-grained encoding. -/
def mkMRP_F (env : SolveEnv) (inp : SSTff S) (γ : ℚ) :
    Except PyErr (MRPModel S) :=
  let c := mrpCategorizeF inp
  let tm := mrpAssignF inp c.2
  let rf := assignRewardFunction tm.1 tm.2
  match assignValueFunction env γ c.2 tm.1 rf with
  | .ok r => .ok ⟨γ, c.1, c.2, tm.1, tm.2, rf, r.1, r.2⟩
  | .error e => .error e

/-- `MRP.__init__` on the shared-reward encoding. -/
def mkMRP_S (env : SolveEnv) (inp : STSff S) (γ : ℚ) :
    Except PyErr (MRPModel S) :=
  let c := mrpCategorizeS inp
  let tm := mrpAssignS inp c.2
  let rf := assignRewardFunction tm.1 tm.2
  match assignValueFunction env γ c.2 tm.1 rf with
  | .ok r => .ok ⟨γ, c.1, c.2, tm.1, tm.2, rf, r.1, r.2⟩
  | .error e => .error e

/-- `MRP.get_expected_reward`: `self.reward_function.get(state)`. -/
def getExpectedReward (m : MRPModel S) (s : S) : Option ℚ :=
  dictGet m.reward_function s

/-- `MRP.get_value`: `self.value_function.get(state)`. -/
def getValue (m : MRPModel S) (s : S) : Option ℚ :=
  dictGet m.value_function s

/-- The loop of `MRP.get_random_sample`, with an explicit random oracle
`pick` (modelling `np.random.choice(next_state_lst, p=pr_list)` at step
`ts`) and a fuel bound; `none` models a run that has not terminated within
the fuel. -/
def sampleLoop (m : MRPModel S) (pick : ℕ → List S → List ℚ → S) :
    ℕ → S → ℚ → ℕ → List S → Option (List S × ℚ)
  | 0, state, g, _, sample =>
    if state ∈ m.non_terminal_states then none else some (sample ++ [state], g)
  | fuel + 1, state, g, ts, sample =>
    if state ∈ m.non_terminal_states then
      let sample' := sample ++ [state]
      let g' := g + m.gamma ^ ts * dictGetD m.reward_function state 0
      let row := dictGetD m.state_transition_matrix state []
      sampleLoop m pick fuel (pick ts (row.map (·.1)) (row.map (·.2))) g' (ts + 1) sample'
    else some (sample ++ [state], g)

/-- `MRP.get_random_sample` with a caller-supplied initial state. -/
def getRandomSample (m : MRPModel S) (pick : ℕ → List S → List ℚ → S)
    (fuel : ℕ) (initial : S) : Option (List S × ℚ) :=
  sampleLoop m pick fuel initial 0 0 []

/-- The probability row stored by `mrpAssignF` for a non-terminal source. -/
def stmRowF (inp : SSTff S) (s1 : S) : List (S × ℚ) :=
  (dictGetD inp s1 []).map fun q => (q.1, q.2.1)

/-- The reward row stored by `mrpAssignF` for a non-terminal source. -/
def rmRowF (inp : SSTff S) (s1 : S) : List (S × ℚ) :=
  (dictGetD inp s1 []).map fun q => (q.1, q.2.2)

/-- The probability row stored by `mrpAssignS` for a non-terminal source. -/
def stmRowS (inp : STSff S) (s1 : S) : List (S × ℚ) :=
  (dictGetD inp s1 ([], 0)).1

/-- The reward row stored by `mrpAssignS` for a non-terminal source: every
key of the whole input mapped to the source's scalar reward. -/
def rmRowS (inp : STSff S) (s1 : S) : List (S × ℚ) :=
  (dictKeys inp).map fun s2 => (s2, (dictGetD inp s1 ([], 0)).2)

/-- The expected one-step reward accumulated by
`MRP._assign_reward_function` for one source state. -/
def erSum (stm rm : List (S × List (S × ℚ))) (cs : S) : ℚ :=
  (dictGetD stm cs []).foldl
    (fun e q =>
      e + dictGetD (dictGetD stm cs []) q.1 0 * dictGetD (dictGetD rm cs []) q.1 0)
    0

/-- Terminal states of the fine-grained MRP constructor. -/
def mrpTlF (inp : SSTff S) : List S := (mrpCategorizeF inp).1

/-- Non-terminal states of the fine-grained MRP constructor. -/
def mrpNtlF (inp : SSTff S) : List S := (mrpCategorizeF inp).2

/-- State-transition matrix of the fine-grained MRP constructor. -/
def mrpStmF (inp : SSTff S) : List (S × List (S × ℚ)) :=
  (mrpAssignF inp (mrpNtlF inp)).1

/-- Reward matrix of the fine-grained MRP constructor. -/
def mrpRmF (inp : SSTff S) : List (S × List (S × ℚ)) :=
  (mrpAssignF inp (mrpNtlF inp)).2

/-- Reward function of the fine-grained MRP constructor. -/
def mrpRfF (inp : SSTff S) : List (S × ℚ) :=
  assignRewardFunction (mrpStmF inp) (mrpRmF inp)

/-- The matrix `I - γ·P` passed to the solver by the fine-grained MRP
constructor. -/
def mrpAmatF (inp : SSTff S) (γ : ℚ) : List (List ℚ) :=
  bellmanA γ (mrpNtlF inp) (mrpStmF inp)

/-- The reward vector passed to the solver by the fine-grained MRP
constructor. -/
def mrpRvecF (inp : SSTff S) : List ℚ := rfValues (mrpRfF inp)

/-- Terminal states of the shared-reward MRP constructor. -/
def mrpTlS (inp : STSff S) : List S := (mrpCategorizeS inp).1

/-- Non-terminal states of the shared-reward MRP constructor. -/
def mrpNtlS (inp : STSff S) : List S := (mrpCategorizeS inp).2

/-- State-transition matrix of the shared-reward MRP constructor. -/
def mrpStmS (inp : STSff S) : List (S × List (S × ℚ)) :=
  (mrpAssignS inp (mrpNtlS inp)).1

/-- Reward matrix of the shared-reward MRP constructor. -/
def mrpRmS (inp : STSff S) : List (S × List (S × ℚ)) :=
  (mrpAssignS inp (mrpNtlS inp)).2

/-- Reward function of the shared-reward MRP constructor. -/
def mrpRfS (inp : STSff S) : List (S × ℚ) :=
  assignRewardFunction (mrpStmS inp) (mrpRmS inp)

/-- The matrix `I - γ·P` passed to the solver by the shared-reward MRP
constructor. -/
def mrpAmatS (inp : STSff S) (γ : ℚ) : List (List ℚ) :=
  bellmanA γ (mrpNtlS inp) (mrpStmS inp)

/-- The reward vector passed to the solver by the shared-reward MRP
constructor. -/
def mrpRvecS (inp : STSff S) : List ℚ := rfValues (mrpRfS inp)

end MRPDefs

section MDPDefs

variable {S A : Type} [DecidableEq S] [DecidableEq A]

/-- The fine-grained-reward MDP input encoding `SASTff`:
(source, action) → {destination: (probability, reward)}. -/
abbrev SASTff (S A : Type) := List ((S × A) × List (S × (ℚ × ℚ)))

/-- The shared-reward MDP input encoding `SATSff`:
(source, action) → ({destination: probability}, scalar reward). -/
abbrev SATSff (S A : Type) := List ((S × A) × (List (S × ℚ) × ℚ))

/-- `MDP._get_all_states_and_actions`: collect the distinct source states
and the distinct actions of the keys, in first-seen order. -/
def mdpGetAllStates (inp : List ((S × A) × ρ)) : List S × List A :=
  inp.foldl
    (fun acc p =>
      (if p.1.1 ∈ acc.1 then acc.1 else acc.1 ++ [p.1.1],
       if p.1.2 ∈ acc.2 then acc.2 else acc.2 ++ [p.1.2]))
    ([], [])

/-- Terminality test of `MDP._categorize_states`, fine-grained branch:
the row for `(s, a)` has an entry for `s` itself and its probability is 1
(the negation of the removal condition in the source). -/
def mdpCheckF (s : S) (row : List (S × (ℚ × ℚ))) : Bool :=
  match dictGet row s with
  | some pr => decide (pr.1 = 1)
  | none => false

/-- Destinations scanned by `MDP._categorize_states`, fine-grained branch. -/
def mdpDestsF (row : List (S × (ℚ × ℚ))) : List S :=
  dictKeys row

/-- Terminality test of `MDP._categorize_states`, shared-reward branch:
`mdp_input.get((s, a))[0].get(s, 0) == 1`. -/
def mdpCheckS (s : S) (row : List (S × ℚ) × ℚ) : Bool :=
  decide (dictGetD row.1 s 0 = 1)

/-- Destinations scanned by `MDP._categorize_states`, shared branch. -/
def mdpDestsS (row : List (S × ℚ) × ℚ) : List S :=
  dictKeys row.1

/-- The inner loop of `MDP._categorize_states` that collects destination
states absent from `all_states` into `temp` (first-seen order, no
duplicates). -/
def tempExtend (states0 : List S) (ds : List S) (temp : List S) : List S :=
  ds.foldl (fun t s1 => if s1 ∉ states0 ∧ s1 ∉ t then t ++ [s1] else t) temp

/-- One iteration of the loop of `MDP._categorize_states` over a key
`(s, a)` and its row: extend `temp` with unseen destinations; when the
terminality test fails and `s` is still in the terminal list, move `s`
from the terminal to the non-terminal list. The accumulator is
`(terminal_states, non_terminal_states, temp)`. -/
def mdpCatStep (check : S → ρ → Bool) (dests : ρ → List S) (states0 : List S)
    (acc : List S × List S × List S) (p : (S × A) × ρ) :
    List S × List S × List S :=
  let temp' := tempExtend states0 (dests p.2) acc.2.2
  if check p.1.1 p.2 then (acc.1, acc.2.1, temp')
  else if p.1.1 ∈ acc.1 then (acc.1.erase p.1.1, acc.2.1 ++ [p.1.1], temp')
  else (acc.1, acc.2.1, temp')

/-- `MDP._categorize_states` (together with the `self.all_states += temp`
side effect): returns `(all_states, terminal_states, non_terminal_states)`
after the augmentation by `temp`. -/
def mdpCategorize (check : S → ρ → Bool) (dests : ρ → List S)
    (states0 : List S) (inp : List ((S × A) × ρ)) :
    List S × List S × List S :=
  let r := inp.foldl (mdpCatStep check dests states0) (states0, [], [])
  (states0 ++ r.2.2, r.1 ++ r.2.2, r.2.1)

/-- `MDP._assign_transition_matrix`, fine-grained branch, as written in the
source: `state_value` / `reward_value` are rebound only when the source
state is non-terminal, but the `update` calls sit outside that guard, so a
terminal-source key is written with the most recently bound rows — and the
very first key being terminal-source reads the unbound `state_value`,
raising a NameError. The accumulator carries the two matrices and the
current (optional) bindings. -/
def mdpAssignF (tl : List S) (inp : SASTff S A) :
    Except String
      (List ((S × A) × List (S × ℚ)) × List ((S × A) × List (S × ℚ))) :=
  (inp.foldlM
    (fun (acc : List ((S × A) × List (S × ℚ)) × List ((S × A) × List (S × ℚ)) ×
        Option (List (S × ℚ)) × Option (List (S × ℚ)))
        (p : (S × A) × List (S × (ℚ × ℚ))) =>
      let sv : Option (List (S × ℚ)) := if p.1.1 ∈ tl then acc.2.2.1
        else some (p.2.map fun (q : S × (ℚ × ℚ)) => (q.1, q.2.1))
      let rv : Option (List (S × ℚ)) := if p.1.1 ∈ tl then acc.2.2.2
        else some (p.2.map fun (q : S × (ℚ × ℚ)) => (q.1, q.2.2))
      match sv, rv with
      | some v, some w =>
        Except.ok (dictUpdate acc.1 p.1 v, dictUpdate acc.2.1 p.1 w, some v, some w)
      | _, _ => Except.error "NameError: name 'state_value' is not defined")
    ([], [], none, none)).map
    fun (a : List ((S × A) × List (S × ℚ)) × List ((S × A) × List (S × ℚ)) ×
        Option (List (S × ℚ)) × Option (List (S × ℚ))) => (a.1, a.2.1)

/-- `MDP._assign_transition_matrix`, shared-reward branch: here the
`update` calls are inside the non-terminal guard, so terminal-source keys
are skipped entirely. -/
def mdpAssignS (tl : List S) (inp : SATSff S A) :
    List ((S × A) × List (S × ℚ)) × List ((S × A) × List (S × ℚ)) :=
  inp.foldl
    (fun acc p =>
      if p.1.1 ∈ tl then acc
      else
        (dictUpdate acc.1 p.1 p.2.1,
         dictUpdate acc.2 p.1 (p.2.1.map fun q => (q.1, p.2.2))))
    ([], [])

/-- A constructed MDP object: the fields computed by `MDP.__init__`.
`transition_matrix` is the pair (state_transition_matrix, reward_matrix)
keyed by (state, action). -/
structure MDPModel (S A : Type) where
  gamma : ℚ
  all_states : List S
  all_actions : List A
  terminal_states : List S
  non_terminal_states : List S
  transition_matrix :
    List ((S × A) × List (S × ℚ)) × List ((S × A) × List (S × ℚ))
deriving DecidableEq

/-- `MDP.__init__` on the fine-grained encoding (may raise, see
`mdpAssignF`). -/
def mkMDP_F (inp : SASTff S A) (γ : ℚ) : Except String (MDPModel S A) :=
  let sa := mdpGetAllStates inp
  let c := mdpCategorize mdpCheckF mdpDestsF sa.1 inp
  (mdpAssignF c.2.1 inp).map fun tm => ⟨γ, c.1, sa.2, c.2.1, c.2.2, tm⟩

/-- `MDP.__init__` on the shared-reward encoding (total). -/
def mkMDP_S (inp : SATSff S A) (γ : ℚ) : MDPModel S A :=
  let sa := mdpGetAllStates inp
  let c := mdpCategorize mdpCheckS mdpDestsS sa.1 inp
  ⟨γ, c.1, sa.2, c.2.1, c.2.2, mdpAssignS c.2.1 inp⟩

/-- `MDP.query_Pr(s, a, s1)`:
`self.transition_matrix[0].get((s, a)).get(s1)`. When `(s, a)` is not a
key, the outer `get` yields `None` and the chained `.get(s1)` raises an
AttributeError; otherwise the inner `get` returns the probability or
`None`. -/
def queryPr (m : MDPModel S A) (s : S) (a : A) (s1 : S) :
    Except String (Option ℚ) :=
  match dictGet m.transition_matrix.1 (s, a) with
  | none => .error "AttributeError: 'NoneType' object has no attribute 'get'"
  | some row => .ok (dictGet row s1)

/-- Python equality between a 2-tuple and a 3-tuple: tuples of different
lengths never compare equal, so this is constantly `False`. `MDP.get_mrp`
subscripts the (state, action)-keyed transition matrix with the triple
`(s, a, s1)`, so every such subscript misses every key. -/
def tupleEq23 (_k2 : S × A) (_k3 : S × A × S) : Bool :=
  false

/-- Subscripting a (state, action)-keyed dictionary with an `(s, a, s1)`
triple, as `MDP.get_mrp` does: `d[(s, a, s1)]` raises KeyError unless some
key compares equal to the triple (none can, by `tupleEq23`). -/
def dictGetTriple : List ((S × A) × V) → S × A × S → Option V
  | [], _ => none
  | p :: d, k => if tupleEq23 p.1 k then some p.2 else dictGetTriple d k

/-- The inner sum of `MDP.get_mrp`:
`sum([matrix[(s, a, s1)] * policy.get_state_action_probability(s, a) for a in all_actions])`;
building the comprehension raises KeyError at the first missing subscript
(and were a value ever found it would be a row dictionary, whose
multiplication by a float would raise a TypeError). -/
def getMrpSum (matrix : List ((S × A) × List (S × ℚ)))
    (_pi : S → A → ℚ) (s s1 : S) (acts : List A) : Except String ℚ :=
  acts.foldlM
    (fun (_ : ℚ) a =>
      match dictGetTriple matrix (s, a, s1) with
      | none => .error "KeyError: (s, a, s1)"
      | some _ =>
        .error "TypeError: unsupported operand type(s) for *: 'dict' and 'float'")
    0

/-- `MDP.get_mrp`: the dense double loop over `all_states × all_states`
accumulating the policy-weighted transition and reward matrices keyed by
state pairs. (The element type of the subscripted matrices is a row
dictionary; the sum model folds it — the subscript raises before any
arithmetic can happen, see `dictGetTriple`.) -/
def getMrp (m : MDPModel S A) (pi : S → A → ℚ) :
    Except String (List ((S × S) × ℚ) × List ((S × S) × ℚ)) :=
  m.all_states.foldlM
    (fun mats s =>
      m.all_states.foldlM
        (fun (mats : List ((S × S) × ℚ) × List ((S × S) × ℚ)) s1 => do
          let p ← getMrpSum m.transition_matrix.1 pi s s1 m.all_actions
          let r ← getMrpSum m.transition_matrix.2 pi s s1 m.all_actions
          pure (dictUpdate mats.1 (s, s1) p, dictUpdate mats.2 (s, s1) r))
        mats)
    ([], [])

/-- A state passes the terminality scan when every declared key with that
source state passes the self-transition test. -/
def keyOK {ρ : Type} (check : S → ρ → Bool) (pre : List ((S × A) × ρ)) (t : S) : Prop :=
  ∀ p ∈ pre, p.1.1 = t → check t p.2 = true

instance keyOKDecidable {ρ : Type} (check : S → ρ → Bool) (pre : List ((S × A) × ρ))
    (t : S) : Decidable (keyOK check pre t) :=
  List.decidableBAll _ pre

end MDPDefs

section EncodingMap

variable {S : Type} [DecidableEq S]

/-- The fine-grained-reward encoding of the logical process given by a
shared-reward encoding: each row `({d: p}, r)` becomes `{d: (p, r)}`. -/
def fineOfShared (inp : STSff S) : SSTff S :=
  inp.map fun p => (p.1, p.2.1.map fun q => (q.1, (q.2, p.2.2)))

end EncodingMap

section ClaimInputs

/-- A 2-state shared-encoding MDP (state 2 absorbing) used to evaluate
`MDP.get_mrp`. -/
def mdpInputC1 : SATSff ℕ ℕ := [((1, 0), ([(2, 1)], 0)), ((2, 0), ([(2, 1)], 0))]

/-- A fine-grained MDP input whose first key (3, 0) has the terminal source
state 3. -/
def mdpInputC10 : SASTff ℕ ℕ := [((3, 0), [(3, (1, 0))]), ((1, 0), [(3, (1, 5))])]

/-- A solver environment that simply returns the reward vector. -/
def envC9 : SolveEnv := ⟨fun _ r => .ok r, fun _ r => r⟩

/-- A 2-state shared-encoding MRP: state 2 is absorbing/terminal. -/
def mrpInputC9 : STSff ℕ := [(1, ([(2, 1)], 5)), (2, ([(2, 1)], 0))]

/-- The MRP object built from `mrpInputC9` at γ = 1 under `envC9`. -/
def mrpModelC9 : MRPModel ℕ :=
  ⟨1, [2], [1], [(1, [(2, 1)])], [(1, [(1, 5), (2, 5)])], [(1, 5)], [(1, 5)], []⟩

/-- A solver environment whose solve always raises the singular-matrix
LinAlgError, with a least-squares fallback returning the reward vector. -/
def envC7 : SolveEnv := ⟨fun _ _ => .error ⟨true, "Singular matrix"⟩, fun _ r => r⟩

/-- A 2-state deterministic cycle: at γ = 1 the Bellman matrix is singular
(the scenario the fallback exists for). -/
def mrpInputC7 : STSff ℕ := [(1, ([(2, 1)], 0)), (2, ([(1, 1)], 0))]

/-- A 2-state shared-encoding MDP used to exhibit the query_Pr
AttributeError. -/
def mdpInputC6 : SATSff ℕ ℕ := [((1, 0), ([(2, 1)], 0)), ((2, 0), ([(2, 1)], 0))]

/-- A solver environment returning the reward vector unchanged. -/
def envC6 : SolveEnv := ⟨fun _ r => .ok r, fun _ r => r⟩

/-- The shared-encoding MRP used for the C6 witness. -/
def mrpInputC6 : STSff ℕ := [(1, ([(2, 1)], 5)), (2, ([(2, 1)], 0))]

/-- The fine-grained-encoding MRP used for the C6 witness. -/
def mrpInputC6f : SSTff ℕ := [(1, [(2, (1, 5))]), (2, [(2, (1, 0))])]

/-- The MRP object built from `mrpInputC6f` at γ = 1 under `envC6`. -/
def mrpModelC6f : MRPModel ℕ :=
  ⟨1, [2], [1], [(1, [(2, 1)])], [(1, [(2, 5)])], [(1, 5)], [(1, 5)], []⟩

/-- The MRP object built from `mrpInputC6` at γ = 1 under `envC6`. -/
def mrpModelC6 : MRPModel ℕ :=
  ⟨1, [2], [1], [(1, [(2, 1)])], [(1, [(1, 5), (2, 5)])], [(1, 5)], [(1, 5)], []⟩

/-- The concrete shared-encoding MRP input for the C8 witness. -/
def mrpInputC8 : STSff ℕ := [(1, ([(2, 1)], 5)), (2, ([(2, 1)], 0))]

/-- The concrete shared-encoding MDP input for the C8 witness. -/
def mdpInputC8 : SATSff ℕ ℕ := [((1, 0), ([(2, 1)], 0)), ((2, 0), ([(2, 1)], 0))]

/-- The MDP input refuting the exists-form of the terminality claim:
state 0 has one action that self-loops with probability 1 and another that
leaves. -/
def mdpInputC2 : SATSff ℕ ℕ := [((0, 0), ([(0, 1)], 0)), ((0, 1), ([(1, 1)], 0))]

/-- The fine-grained MDP input for the C2 witness (first key non-terminal
so that construction completes). -/
def mdpInputC2w : SASTff ℕ ℕ := [((2, 0), [(1, (1, 5))]), ((1, 0), [(1, (1, 0))])]

/-- The MDP object built from `mdpInputC2w` at γ = 1. -/
def mdpModelC2w : MDPModel ℕ ℕ :=
  ⟨1, [2, 1], [0], [1], [2],
   ([((2, 0), [(1, 1)]), ((1, 0), [(1, 1)])],
    [((2, 0), [(1, 5)]), ((1, 0), [(1, 5)])])⟩

/-- The MRP input for the C3 counterexample: state 2 appears only as a
destination. -/
def mrpInputC3 : STSff ℕ := [(1, ([(2, 1)], 0))]

/-- The shared-encoding MDP input for the C3 witness: state 2 is a
destination only. -/
def mdpInputC3w : SATSff ℕ ℕ := [((1, 0), ([(2, 1)], 0))]

/-- A pass-through solver environment for the C3 witness. -/
def envC3 : SolveEnv := ⟨fun _ r => .ok r, fun _ r => r⟩

/-- The shared-encoding MRP input for the C3 witness. -/
def mrpInputC3w : STSff ℕ := [(1, ([(2, 1)], 5))]

/-- The MRP object built from `mrpInputC3w` at γ = 1 under `envC3`:
state 2 appears nowhere in the partition, and the reward mass sent to it
is lost by the shared-reward row keying. -/
def mrpModelC3w : MRPModel ℕ :=
  ⟨1, [], [1], [(1, [(2, 1)])], [(1, [(1, 5)])], [(1, 0)], [(1, 0)], []⟩

/-- The fine-grained MDP input for the C4 counterexample: state 2 is
terminal and its key (2, 0) comes after a non-terminal key. -/
def mdpInputC4 : SASTff ℕ ℕ := [((1, 0), [(2, (1, 0))]), ((2, 0), [(2, (1, 0))])]

/-- The MDP object built from `mdpInputC4` at γ = 1: the terminal-source
key (2, 0) is present in both matrices, carrying the previous row's
(stale) values. -/
def mdpModelC4 : MDPModel ℕ ℕ :=
  ⟨1, [1, 2], [0], [2], [1],
   ([((1, 0), [(2, 1)]), ((2, 0), [(2, 1)])],
    [((1, 0), [(2, 0)]), ((2, 0), [(2, 0)])])⟩

/-- Pass-through solver for the C4 witness. -/
def envC4 : SolveEnv := ⟨fun _ r => .ok r, fun _ r => r⟩

/-- Shared-encoding MRP input for the C4 witness. -/
def mrpInputC4w : STSff ℕ := [(1, ([(2, 1)], 5)), (2, ([(2, 1)], 0))]

/-- The MRP object built from `mrpInputC4w` at γ = 1 under `envC4`. -/
def mrpModelC4w : MRPModel ℕ :=
  ⟨1, [2], [1], [(1, [(2, 1)])], [(1, [(1, 5), (2, 5)])], [(1, 5)], [(1, 5)], []⟩

/-- Shared-encoding MDP input for the C4 witness. -/
def mdpInputC4s : SATSff ℕ ℕ := [((1, 0), ([(2, 1)], 0)), ((2, 0), ([(2, 1)], 0))]

/-- The shared-encoding input for the C5 counterexample: the destination 2
is not itself a declared source key. -/
def mrpInputC5 : STSff ℕ := [(1, ([(2, 1)], 5))]

/-- Pass-through solver for the C5 witness. -/
def envC5 : SolveEnv := ⟨fun _ r => .ok r, fun _ r => r⟩

/-- Shared-encoding input for the C5 witness: all destinations are
declared source keys. -/
def mrpInputC5w : STSff ℕ := [(1, ([(2, 1)], 5)), (2, ([(2, 1)], 0))]

/-- Pass-through solver for the C3 counterexample. -/
def envC3cex : SolveEnv := ⟨fun _ r => .ok r, fun _ r => r⟩

/-- The MRP object built from `mrpInputC3` at γ = 1 under `envC3cex`:
state 2 appears in neither state list. -/
def mrpModelC3 : MRPModel ℕ :=
  ⟨1, [], [1], [(1, [(2, 1)])], [(1, [(1, 0)])], [(1, 0)], [(1, 0)], []⟩

/-- Pass-through solver for the C5 counterexample. -/
def envC5cex : SolveEnv := ⟨fun _ r => .ok r, fun _ r => r⟩

/-- The MRP object built from the fine-grained encoding of `mrpInputC5`. -/
def mrpModelC5F : MRPModel ℕ :=
  ⟨1, [], [1], [(1, [(2, 1)])], [(1, [(2, 5)])], [(1, 5)], [(1, 5)], []⟩

/-- The MRP object built from the shared-reward encoding `mrpInputC5`. -/
def mrpModelC5S : MRPModel ℕ :=
  ⟨1, [], [1], [(1, [(2, 1)])], [(1, [(1, 5)])], [(1, 0)], [(1, 0)], []⟩

end ClaimInputs

section DictLemmas

variable {K V W : Type} [DecidableEq K]

lemma dictGet_eq_none_iff (d : List (K × V)) (k : K) :
    dictGet d k = none ↔ k ∉ dictKeys d := by
  induction d with
  | nil => simp [dictGet, dictKeys]
  | cons p d ih =>
    by_cases h : p.1 = k <;> simp [dictGet, dictKeys, h, ih, Ne.symm]

lemma dictGet_isSome_iff (d : List (K × V)) (k : K) :
    (dictGet d k).isSome = true ↔ k ∈ dictKeys d := by
  induction d with
  | nil => simp [dictGet, dictKeys]
  | cons p d ih =>
    by_cases h : p.1 = k <;> simp [dictGet, dictKeys, h, ih, Ne.symm]

lemma dictGet_mem (d : List (K × V)) (k : K) (v : V)
    (h : dictGet d k = some v) : (k, v) ∈ d := by
  induction d with
  | nil => simp [dictGet] at h
  | cons p d ih =>
    by_cases hp : p.1 = k
    · simp only [dictGet, if_pos hp] at h
      injection h with hv
      subst hv
      subst hp
      simp
    · simp only [dictGet, if_neg hp] at h
      exact List.mem_cons_of_mem _ (ih h)

lemma dictGet_update (d : List (K × V)) (k0 k : K) (w : V) :
    dictGet (dictUpdate d k0 w) k = if k0 = k then some w else dictGet d k := by
  induction d with
  | nil =>
    by_cases hk : k0 = k <;> simp [dictUpdate, dictGet, hk]
  | cons p d ih =>
    simp only [dictUpdate]
    by_cases h : p.1 = k0
    · rw [if_pos h]
      by_cases hk : k0 = k
      · simp [dictGet, hk]
      · have h2 : ¬ p.1 = k := fun hpk => hk (h.symm.trans hpk)
        simp [dictGet, hk, h2]
    · rw [if_neg h]
      simp only [dictGet]
      by_cases hk : p.1 = k
      · have h2 : ¬ k0 = k := fun he => h (hk.trans he.symm)
        simp [hk, h2]
      · simp [hk, ih]

lemma mem_dictKeys_update (d : List (K × V)) (k0 k : K) (w : V) :
    k ∈ dictKeys (dictUpdate d k0 w) ↔ k ∈ dictKeys d ∨ k = k0 := by
  induction d with
  | nil => simp [dictUpdate, dictKeys]
  | cons p d ih =>
    by_cases h : p.1 = k0
    · subst h
      by_cases hk : k = p.1 <;> simp [dictUpdate, dictKeys, hk]
    · simp only [dictUpdate, if_neg h, dictKeys, List.map_cons, List.mem_cons]
      rw [show dictKeys (dictUpdate d k0 w) = (dictUpdate d k0 w).map (·.1) from rfl] at ih
      rw [show dictKeys d = d.map (·.1) from rfl] at ih
      rw [ih]
      tauto

lemma dictGet_map_value (g : V → W) (d : List (K × V)) (k : K) :
    dictGet (d.map fun p => (p.1, g p.2)) k = (dictGet d k).map g := by
  induction d with
  | nil => simp [dictGet]
  | cons p d ih => by_cases h : p.1 = k <;> simp [dictGet, h, ih]

lemma dictGet_const (keys : List K) (r : V) (k : K) :
    dictGet (keys.map fun s => (s, r)) k =
      if k ∈ keys then some r else none := by
  induction keys with
  | nil => simp [dictGet]
  | cons a keys ih =>
    by_cases h : a = k
    · simp [dictGet, h]
    · simp [dictGet, h, ih, Ne.symm h]

lemma dictGet_all_eq (d : List (K × V)) (r : V) (k : K)
    (hall : ∀ p ∈ d, p.2 = r) (hk : k ∈ dictKeys d) :
    dictGet d k = some r := by
  induction d with
  | nil => simp [dictKeys] at hk
  | cons p d ih =>
    by_cases h : p.1 = k
    · simpa [dictGet, h] using hall p (by simp)
    · have hk' : k ∈ dictKeys d := by
        simp only [dictKeys, List.map_cons, List.mem_cons] at hk
        rcases hk with hk | hk
        · exact absurd hk.symm h
        · simpa [dictKeys] using hk
      simp only [dictGet, if_neg h]
      exact ih (fun q hq => hall q (List.mem_cons_of_mem _ hq)) hk'

lemma dictGet_foldl_update (v : K → V) (l : List K) (k : K) :
    ∀ init : List (K × V),
    dictGet (l.foldl (fun d k1 => dictUpdate d k1 (v k1)) init) k =
      if k ∈ l then some (v k) else dictGet init k := by
  induction l with
  | nil => intro init; simp
  | cons a l ih =>
    intro init
    simp only [List.foldl_cons, ih, dictGet_update]
    by_cases hl : k ∈ l
    · simp [hl]
    · by_cases ha : a = k
      · simp [ha, hl]
      · have ha2 : ¬ k = a := fun he => ha he.symm
        simp [hl, ha, ha2]

lemma mem_dictKeys_foldl_update (v : K → V) (l : List K) (k : K) :
    ∀ init : List (K × V),
    k ∈ dictKeys (l.foldl (fun d k1 => dictUpdate d k1 (v k1)) init) ↔
      k ∈ dictKeys init ∨ k ∈ l := by
  induction l with
  | nil => simp
  | cons a l ih =>
    intro init
    simp only [List.foldl_cons, ih, mem_dictKeys_update, List.mem_cons]
    tauto

end DictLemmas

section FoldLemmas

variable {K V1 V2 : Type} [DecidableEq K]

/-- A loop that updates two dictionaries with values computed from the key
splits into two independent loops. -/
lemma foldl_pair_update (f : K → V1) (h : K → V2) (l : List K) :
    ∀ d : List (K × V1) × List (K × V2),
    l.foldl (fun acc k => (dictUpdate acc.1 k (f k), dictUpdate acc.2 k (h k))) d =
      (l.foldl (fun d1 k => dictUpdate d1 k (f k)) d.1,
       l.foldl (fun d2 k => dictUpdate d2 k (h k)) d.2) := by
  induction l with
  | nil => intro d; rfl
  | cons a l ih => intro d; simpa only [List.foldl_cons] using ih _

lemma dictGet_zip_eq_none {V : Type} (l : List K) (v : List V) (k : K)
    (h : k ∉ l) : dictGet (l.zip v) k = none := by
  induction l generalizing v with
  | nil => simp [dictGet]
  | cons a l ih =>
    cases v with
    | nil => simp [dictGet]
    | cons w v =>
      have ha : ¬ a = k := fun he => h (he ▸ List.mem_cons_self a l)
      simp only [List.zip_cons_cons, dictGet, if_neg ha]
      exact ih _ (fun hk => h (List.mem_cons_of_mem _ hk))

lemma dictKeys_update (d : List (K × V)) (k : K) (v : V) :
    dictKeys (dictUpdate d k v) =
      if k ∈ dictKeys d then dictKeys d else dictKeys d ++ [k] := by
  induction d with
  | nil => simp [dictUpdate, dictKeys]
  | cons p d ih =>
    by_cases h : p.1 = k
    · simp [dictUpdate, dictKeys, h]
    · have h2 : ¬ k = p.1 := fun he => h he.symm
      simp only [dictUpdate, if_neg h, dictKeys, List.map_cons]
      rw [show List.map (fun x => x.1) (dictUpdate d k v) =
        dictKeys (dictUpdate d k v) from rfl, ih]
      by_cases hk : k ∈ dictKeys d <;> simp only [dictKeys] at hk ⊢ <;>
        simp [hk, h2]

/-- The generalized update-fold key characterization: folding updates with
keys drawn from the elements of a list. -/
lemma mem_dictKeys_foldl_update_gen {β : Type} (key : β → K) (val : β → V)
    (l : List β) (k : K) :
    ∀ init : List (K × V),
    k ∈ dictKeys (l.foldl (fun d b => dictUpdate d (key b) (val b)) init) ↔
      k ∈ dictKeys init ∨ ∃ b ∈ l, key b = k := by
  induction l with
  | nil => simp
  | cons b l ih =>
    intro init
    simp only [List.foldl_cons, ih, mem_dictKeys_update, List.mem_cons]
    constructor
    · rintro ((hk | rfl) | ⟨c, hc, hck⟩)
      · exact Or.inl hk
      · exact Or.inr ⟨b, Or.inl rfl, rfl⟩
      · exact Or.inr ⟨c, Or.inr hc, hck⟩
    · rintro (hk | ⟨c, (rfl | hc), hck⟩)
      · exact Or.inl (Or.inl hk)
      · exact Or.inl (Or.inr hck.symm)
      · exact Or.inr ⟨c, hc, hck⟩

lemma foldl_update_congr (v1 v2 : K → V) (l : List K)
    (h : ∀ k ∈ l, v1 k = v2 k) :
    ∀ init : List (K × V),
    l.foldl (fun d k => dictUpdate d k (v1 k)) init =
      l.foldl (fun d k => dictUpdate d k (v2 k)) init := by
  induction l with
  | nil => intro init; rfl
  | cons a l ih =>
    intro init
    simp only [List.foldl_cons]
    rw [h a (by simp)]
    exact ih (fun k hk => h k (List.mem_cons_of_mem _ hk)) _

lemma dictKeys_foldl_update_val_indep {V2 : Type} (v1 : K → V) (v2 : K → V2)
    (l : List K) :
    ∀ (d1 : List (K × V)) (d2 : List (K × V2)), dictKeys d1 = dictKeys d2 →
    dictKeys (l.foldl (fun d k => dictUpdate d k (v1 k)) d1) =
      dictKeys (l.foldl (fun d k => dictUpdate d k (v2 k)) d2) := by
  induction l with
  | nil => intro d1 d2 h; exact h
  | cons a l ih =>
    intro d1 d2 h
    simp only [List.foldl_cons]
    refine ih _ _ ?_
    rw [dictKeys_update, dictKeys_update, h]

lemma foldl_sum_congr {β : Type} (f g : β → ℚ) (l : List β)
    (h : ∀ b ∈ l, f b = g b) :
    ∀ e : ℚ, l.foldl (fun e b => e + f b) e = l.foldl (fun e b => e + g b) e := by
  induction l with
  | nil => intro e; rfl
  | cons b l ih =>
    intro e
    simp only [List.foldl_cons]
    rw [h b (by simp)]
    exact ih (fun c hc => h c (List.mem_cons_of_mem _ hc)) _

end FoldLemmas

section MRPLemmas

variable {S : Type} [DecidableEq S]

lemma mrpAssignF_eq (inp : SSTff S) (ntl : List S) :
    mrpAssignF inp ntl =
      (ntl.foldl (fun d s1 => dictUpdate d s1 (stmRowF inp s1)) [],
       ntl.foldl (fun d s1 => dictUpdate d s1 (rmRowF inp s1)) []) :=
  foldl_pair_update _ _ _ _

lemma mrpAssignS_eq (inp : STSff S) (ntl : List S) :
    mrpAssignS inp ntl =
      (ntl.foldl (fun d s1 => dictUpdate d s1 (stmRowS inp s1)) [],
       ntl.foldl (fun d s1 => dictUpdate d s1 (rmRowS inp s1)) []) :=
  foldl_pair_update _ _ _ _

/-- The classification loop appends each visited state to exactly one of
the two lists: the result is the filter/negated-filter pair. -/
lemma mrpCategorizeWith_spec (check : S → Bool) (keys : List S) :
    mrpCategorizeWith check keys =
      (keys.filter check, keys.filter fun s => ! check s) := by
  suffices h : ∀ (l : List S) (acc : List S × List S),
      l.foldl
        (fun acc s => if check s then (acc.1 ++ [s], acc.2) else (acc.1, acc.2 ++ [s]))
        acc =
      (acc.1 ++ l.filter check, acc.2 ++ l.filter fun s => ! check s) by
    simpa [mrpCategorizeWith] using h keys ([], [])
  intro l
  induction l with
  | nil => intro acc; simp
  | cons a l ih =>
    intro acc
    by_cases ha : check a <;>
      simp [List.filter_cons, ha, ih]

lemma mem_mrpCategorizeWith_fst (check : S → Bool) (keys : List S) (s : S) :
    s ∈ (mrpCategorizeWith check keys).1 ↔ s ∈ keys ∧ check s = true := by
  rw [mrpCategorizeWith_spec]
  simp [List.mem_filter]

lemma mem_mrpCategorizeWith_snd (check : S → Bool) (keys : List S) (s : S) :
    s ∈ (mrpCategorizeWith check keys).2 ↔ s ∈ keys ∧ check s = false := by
  rw [mrpCategorizeWith_spec]
  simp [List.mem_filter]

/-- Terminal and non-terminal states of an MRP are disjoint by
construction. -/
lemma mrpCategorizeWith_disjoint (check : S → Bool) (keys : List S) (s : S) :
    ¬ (s ∈ (mrpCategorizeWith check keys).1 ∧
       s ∈ (mrpCategorizeWith check keys).2) := by
  rw [mem_mrpCategorizeWith_fst, mem_mrpCategorizeWith_snd]
  rintro ⟨⟨-, h1⟩, ⟨-, h2⟩⟩
  rw [h1] at h2
  cases h2

/-- The keys of each matrix produced by the MRP assignment loops are
exactly the visited non-terminal states (as a membership statement). -/
lemma mem_mrpAssign_keys (rowf : S → List (S × ℚ)) (ntl : List S) (s : S) :
    s ∈ dictKeys (ntl.foldl (fun d s1 => dictUpdate d s1 (rowf s1)) []) ↔
      s ∈ ntl := by
  rw [mem_dictKeys_foldl_update]
  simp [dictKeys]

lemma assignRewardFunction_eq (stm rm : List (S × List (S × ℚ))) :
    assignRewardFunction stm rm =
      (dictKeys rm).foldl
        (fun acc cs => dictUpdate acc cs (round5 (erSum stm rm cs))) [] := by
  rw [dictKeys, List.foldl_map]
  rfl

lemma mkMRP_F_eq (env : SolveEnv) (inp : SSTff S) (γ : ℚ) :
    mkMRP_F env inp γ =
      match assignValueFunction env γ (mrpNtlF inp) (mrpStmF inp) (mrpRfF inp) with
      | .ok r =>
        .ok ⟨γ, mrpTlF inp, mrpNtlF inp, mrpStmF inp, mrpRmF inp, mrpRfF inp,
          r.1, r.2⟩
      | .error e => .error e := rfl

lemma mkMRP_S_eq (env : SolveEnv) (inp : STSff S) (γ : ℚ) :
    mkMRP_S env inp γ =
      match assignValueFunction env γ (mrpNtlS inp) (mrpStmS inp) (mrpRfS inp) with
      | .ok r =>
        .ok ⟨γ, mrpTlS inp, mrpNtlS inp, mrpStmS inp, mrpRmS inp, mrpRfS inp,
          r.1, r.2⟩
      | .error e => .error e := rfl

lemma assignValueFunction_of_error (env : SolveEnv) (γ : ℚ) (ntl : List S)
    (stm : List (S × List (S × ℚ))) (rf : List (S × ℚ)) (e : PyErr)
    (h : env.solve (bellmanA γ ntl stm) (rfValues rf) = .error e) :
    assignValueFunction env γ ntl stm rf =
      if e.isLinAlgError && strContains e.msg "Singular matrix" then
        .ok (ntl.zip (env.lstsq (bellmanA γ ntl stm) (rfValues rf)),
          [singularWarning])
      else .error e := by
  simp only [assignValueFunction]
  rw [h]

lemma assignValueFunction_ok_shape (env : SolveEnv) (γ : ℚ) (ntl : List S)
    (stm : List (S × List (S × ℚ))) (rf : List (S × ℚ))
    (r : List (S × ℚ) × List String)
    (h : assignValueFunction env γ ntl stm rf = .ok r) :
    ∃ V, r.1 = ntl.zip V := by
  simp only [assignValueFunction] at h
  rcases hs : env.solve (bellmanA γ ntl stm) (rfValues rf) with e | V
  · rw [hs] at h
    have h2 : (if (e.isLinAlgError && strContains e.msg "Singular matrix") = true then
        Except.ok ((ntl.zip (env.lstsq (bellmanA γ ntl stm) (rfValues rf)),
          [singularWarning]) : List (S × ℚ) × List String)
      else Except.error e) = Except.ok r := h
    by_cases hc : e.isLinAlgError && strContains e.msg "Singular matrix"
    · rw [if_pos hc] at h2
      injection h2 with h2
      exact ⟨_, by rw [← h2]⟩
    · rw [if_neg hc] at h2
      cases h2
  · rw [hs] at h
    have h2 : (Except.ok ((ntl.zip V, []) : List (S × ℚ) × List String) :
        Except PyErr _) = Except.ok r := h
    injection h2 with h2
    exact ⟨V, by rw [← h2]⟩

/-- Fields of a successfully constructed shared-reward MRP. -/
lemma mkMRP_S_ok_fields (env : SolveEnv) (inp : STSff S) (γ : ℚ)
    (m : MRPModel S) (h : mkMRP_S env inp γ = .ok m) :
    m.terminal_states = mrpTlS inp ∧
    m.non_terminal_states = mrpNtlS inp ∧
    m.state_transition_matrix = mrpStmS inp ∧
    m.reward_matrix = mrpRmS inp ∧
    m.reward_function = mrpRfS inp ∧
    ∃ V, m.value_function = (mrpNtlS inp).zip V := by
  rw [mkMRP_S_eq] at h
  rcases hvf : assignValueFunction env γ (mrpNtlS inp) (mrpStmS inp) (mrpRfS inp)
    with e | r
  · rw [hvf] at h
    cases h
  · rw [hvf] at h
    injection h with h
    subst h
    obtain ⟨V, hV⟩ := assignValueFunction_ok_shape env γ _ _ _ r hvf
    exact ⟨rfl, rfl, rfl, rfl, rfl, V, hV⟩

/-- Fields of a successfully constructed fine-grained MRP. -/
lemma mkMRP_F_ok_fields (env : SolveEnv) (inp : SSTff S) (γ : ℚ)
    (m : MRPModel S) (h : mkMRP_F env inp γ = .ok m) :
    m.terminal_states = mrpTlF inp ∧
    m.non_terminal_states = mrpNtlF inp ∧
    m.state_transition_matrix = mrpStmF inp ∧
    m.reward_matrix = mrpRmF inp ∧
    m.reward_function = mrpRfF inp ∧
    ∃ V, m.value_function = (mrpNtlF inp).zip V := by
  rw [mkMRP_F_eq] at h
  rcases hvf : assignValueFunction env γ (mrpNtlF inp) (mrpStmF inp) (mrpRfF inp)
    with e | r
  · rw [hvf] at h
    cases h
  · rw [hvf] at h
    injection h with h
    subst h
    obtain ⟨V, hV⟩ := assignValueFunction_ok_shape env γ _ _ _ r hvf
    exact ⟨rfl, rfl, rfl, rfl, rfl, V, hV⟩

end MRPLemmas

section MDPLemmas

variable {S A ρ : Type} [DecidableEq S] [DecidableEq A]

lemma mdpGetAllStates_fst_eq (inp : List ((S × A) × ρ)) :
    ∀ acc : List S × List A,
    (inp.foldl
      (fun acc p =>
        (if p.1.1 ∈ acc.1 then acc.1 else acc.1 ++ [p.1.1],
         if p.1.2 ∈ acc.2 then acc.2 else acc.2 ++ [p.1.2])) acc).1 =
      inp.foldl (fun sl p => if p.1.1 ∈ sl then sl else sl ++ [p.1.1]) acc.1 := by
  induction inp with
  | nil => intro acc; rfl
  | cons p inp ih => intro acc; simpa only [List.foldl_cons] using ih _

lemma dedupFold_spec (inp : List ((S × A) × ρ)) :
    ∀ acc : List S, acc.Nodup →
    (inp.foldl (fun sl p => if p.1.1 ∈ sl then sl else sl ++ [p.1.1]) acc).Nodup ∧
    ∀ s, s ∈ inp.foldl (fun sl p => if p.1.1 ∈ sl then sl else sl ++ [p.1.1]) acc ↔
      s ∈ acc ∨ ∃ p ∈ inp, p.1.1 = s := by
  induction inp with
  | nil => intro acc h; simpa using h
  | cons p inp ih =>
    intro acc h
    by_cases hp : p.1.1 ∈ acc
    · simp only [List.foldl_cons, if_pos hp]
      refine ⟨(ih acc h).1, fun s => ?_⟩
      rw [(ih acc h).2 s]
      simp only [List.mem_cons]
      constructor
      · rintro (hs | ⟨q, hq, hqs⟩)
        · exact Or.inl hs
        · exact Or.inr ⟨q, Or.inr hq, hqs⟩
      · rintro (hs | ⟨q, (rfl | hq), hqs⟩)
        · exact Or.inl hs
        · exact Or.inl (hqs ▸ hp)
        · exact Or.inr ⟨q, hq, hqs⟩
    · have hacc : (acc ++ [p.1.1]).Nodup := by
        simp [List.nodup_append, h, List.disjoint_singleton, hp]
      simp only [List.foldl_cons, if_neg hp]
      refine ⟨(ih _ hacc).1, fun s => ?_⟩
      rw [(ih _ hacc).2 s]
      simp only [List.mem_append, List.mem_cons, List.not_mem_nil, or_false]
      constructor
      · rintro ((hs | rfl) | ⟨q, hq, hqs⟩)
        · exact Or.inl hs
        · exact Or.inr ⟨p, Or.inl rfl, rfl⟩
        · exact Or.inr ⟨q, Or.inr hq, hqs⟩
      · rintro (hs | ⟨q, (rfl | hq), hqs⟩)
        · exact Or.inl (Or.inl hs)
        · exact Or.inl (Or.inr hqs.symm)
        · exact Or.inr ⟨q, hq, hqs⟩

lemma mdpGetAllStates_nodup (inp : List ((S × A) × ρ)) :
    (mdpGetAllStates inp).1.Nodup := by
  rw [show (mdpGetAllStates inp).1 =
    (inp.foldl
      (fun acc p =>
        (if p.1.1 ∈ acc.1 then acc.1 else acc.1 ++ [p.1.1],
         if p.1.2 ∈ acc.2 then acc.2 else acc.2 ++ [p.1.2])) ([], [])).1 from rfl]
  rw [mdpGetAllStates_fst_eq]
  exact (dedupFold_spec inp [] List.nodup_nil).1

lemma mem_mdpGetAllStates (inp : List ((S × A) × ρ)) (s : S) :
    s ∈ (mdpGetAllStates inp).1 ↔ ∃ p ∈ inp, p.1.1 = s := by
  rw [show (mdpGetAllStates inp).1 =
    (inp.foldl
      (fun acc p =>
        (if p.1.1 ∈ acc.1 then acc.1 else acc.1 ++ [p.1.1],
         if p.1.2 ∈ acc.2 then acc.2 else acc.2 ++ [p.1.2])) ([], [])).1 from rfl]
  rw [mdpGetAllStates_fst_eq]
  rw [(dedupFold_spec inp [] List.nodup_nil).2 s]
  simp

lemma tempExtend_spec (states0 : List S) (ds : List S) :
    ∀ temp : List S, temp.Nodup →
    (tempExtend states0 ds temp).Nodup ∧
    ∀ t, t ∈ tempExtend states0 ds temp ↔
      t ∈ temp ∨ (t ∉ states0 ∧ t ∈ ds) := by
  induction ds with
  | nil => intro temp h; simpa [tempExtend] using h
  | cons d ds ih =>
    intro temp h
    by_cases hd : d ∉ states0 ∧ d ∉ temp
    · have htemp : (temp ++ [d]).Nodup := by
        simp [List.nodup_append, h, List.disjoint_singleton, hd.2]
      rw [show tempExtend states0 (d :: ds) temp = tempExtend states0 ds (temp ++ [d]) by
        simp [tempExtend, hd]]
      refine ⟨(ih _ htemp).1, fun t => ?_⟩
      rw [(ih _ htemp).2 t]
      simp only [List.mem_append, List.mem_cons, List.not_mem_nil, or_false]
      constructor
      · rintro ((ht | rfl) | ⟨h1, h2⟩)
        · exact Or.inl ht
        · exact Or.inr ⟨hd.1, Or.inl rfl⟩
        · exact Or.inr ⟨h1, Or.inr h2⟩
      · rintro (ht | ⟨h1, rfl | h2⟩)
        · exact Or.inl (Or.inl ht)
        · exact Or.inl (Or.inr rfl)
        · exact Or.inr ⟨h1, h2⟩
    · rw [show tempExtend states0 (d :: ds) temp = tempExtend states0 ds temp by
        simp [tempExtend, hd]]
      refine ⟨(ih _ h).1, fun t => ?_⟩
      rw [(ih _ h).2 t]
      simp only [List.mem_cons]
      rcases Decidable.not_and_iff_or_not.mp hd with hd | hd
      · rw [Decidable.not_not] at hd
        constructor
        · rintro (ht | ⟨h1, h2⟩)
          · exact Or.inl ht
          · exact Or.inr ⟨h1, Or.inr h2⟩
        · rintro (ht | ⟨h1, rfl | h2⟩)
          · exact Or.inl ht
          · exact absurd hd h1
          · exact Or.inr ⟨h1, h2⟩
      · rw [Decidable.not_not] at hd
        constructor
        · rintro (ht | ⟨h1, h2⟩)
          · exact Or.inl ht
          · exact Or.inr ⟨h1, Or.inr h2⟩
        · rintro (ht | ⟨h1, rfl | h2⟩)
          · exact Or.inl ht
          · exact Or.inl hd
          · exact Or.inr ⟨h1, h2⟩

lemma keyOK_nil (check : S → ρ → Bool) (t : S) :
    keyOK check ([] : List ((S × A) × ρ)) t := by
  intro p hp
  cases hp

lemma keyOK_append (check : S → ρ → Bool) (pre l : List ((S × A) × ρ)) (t : S) :
    keyOK check (pre ++ l) t ↔ keyOK check pre t ∧ keyOK check l t := by
  constructor
  · intro h
    exact ⟨fun p hp => h p (List.mem_append_left _ hp),
           fun p hp => h p (List.mem_append_right _ hp)⟩
  · rintro ⟨h1, h2⟩ p hp
    rcases List.mem_append.mp hp with hp | hp
    · exact h1 p hp
    · exact h2 p hp

lemma keyOK_singleton (check : S → ρ → Bool) (p : (S × A) × ρ) (t : S) :
    keyOK check [p] t ↔ (p.1.1 = t → check t p.2 = true) := by
  constructor
  · intro h
    exact h p (by simp)
  · intro h q hq
    rcases List.mem_singleton.mp hq with rfl
    exact h

/-- Invariant of the classification loop of `MDP._categorize_states`:
after processing the keys of `pre`, the terminal list is the filter of
`states0` by `keyOK`, the non-terminal list collects exactly the declared
states failing `keyOK`, and `temp` collects exactly the destinations
outside `states0`, all without duplicates. -/
lemma mdpCatLoop_spec (check : S → ρ → Bool) (dests : ρ → List S)
    (states0 : List S) (h0 : states0.Nodup) :
    ∀ (inp pre : List ((S × A) × ρ)) (tl ntl temp : List S),
    (∀ p ∈ inp, p.1.1 ∈ states0) →
    tl = states0.filter (fun t => decide (keyOK check pre t)) →
    (∀ t, t ∈ ntl ↔ t ∈ states0 ∧ ¬ keyOK check pre t) →
    ntl.Nodup →
    temp.Nodup →
    (∀ t, t ∈ temp ↔ t ∉ states0 ∧ ∃ p ∈ pre, t ∈ dests p.2) →
    (inp.foldl (mdpCatStep check dests states0) (tl, ntl, temp)).1 =
        states0.filter (fun t => decide (keyOK check (pre ++ inp) t)) ∧
    (∀ t, t ∈ (inp.foldl (mdpCatStep check dests states0) (tl, ntl, temp)).2.1 ↔
        t ∈ states0 ∧ ¬ keyOK check (pre ++ inp) t) ∧
    (inp.foldl (mdpCatStep check dests states0) (tl, ntl, temp)).2.1.Nodup ∧
    (inp.foldl (mdpCatStep check dests states0) (tl, ntl, temp)).2.2.Nodup ∧
    (∀ t, t ∈ (inp.foldl (mdpCatStep check dests states0) (tl, ntl, temp)).2.2 ↔
        t ∉ states0 ∧ ∃ p ∈ pre ++ inp, t ∈ dests p.2) := by
  intro inp
  induction inp with
  | nil =>
    intro pre tl ntl temp _ htl hntl hnd htd htemp
    rw [List.foldl_nil, List.append_nil]
    exact ⟨htl, hntl, hnd, htd, htemp⟩
  | cons p inp ih =>
    intro pre tl ntl temp hsrc htl hntl hnd htd htemp
    have hs : p.1.1 ∈ states0 := hsrc p (by simp)
    have htemp' := tempExtend_spec states0 (dests p.2) temp htd
    have htempmem : ∀ t, t ∈ tempExtend states0 (dests p.2) temp ↔
        t ∉ states0 ∧ ∃ q ∈ pre ++ [p], t ∈ dests q.2 := by
      intro t
      rw [htemp'.2 t, htemp t]
      constructor
      · rintro (⟨h1, q, hq, hqd⟩ | ⟨h1, h2⟩)
        · exact ⟨h1, q, List.mem_append_left _ hq, hqd⟩
        · exact ⟨h1, p, List.mem_append_right _ (by simp), h2⟩
      · rintro ⟨h1, q, hq, hqd⟩
        rcases List.mem_append.mp hq with hq | hq
        · exact Or.inl ⟨h1, q, hq, hqd⟩
        · rcases List.mem_singleton.mp hq with rfl
          exact Or.inr ⟨h1, hqd⟩
    have happ : (pre ++ [p]) ++ inp = pre ++ p :: inp := by simp
    by_cases hc : check p.1.1 p.2 = true
    · have hstep : mdpCatStep check dests states0 (tl, ntl, temp) p =
          (tl, ntl, tempExtend states0 (dests p.2) temp) := by
        simp [mdpCatStep, hc]
      rw [List.foldl_cons, hstep, ← happ]
      refine ih (pre ++ [p]) _ _ _ (fun q hq => hsrc q (by simp [hq])) ?_ ?_ hnd htemp'.1 htempmem
      · rw [htl]
        apply List.filter_congr
        intro t _
        simp only [decide_eq_decide, keyOK_append, keyOK_singleton]
        constructor
        · intro h
          refine ⟨h, fun hpt => ?_⟩
          rw [← hpt]
          exact hc
        · exact fun h => h.1
      · intro t
        rw [hntl t]
        simp only [keyOK_append, keyOK_singleton]
        constructor
        · rintro ⟨h1, h2⟩
          exact ⟨h1, fun hh => h2 hh.1⟩
        · rintro ⟨h1, h2⟩
          refine ⟨h1, fun hk => h2 ⟨hk, fun hpt => ?_⟩⟩
          rw [← hpt]
          exact hc
    · by_cases hmem : p.1.1 ∈ tl
      · have hstep : mdpCatStep check dests states0 (tl, ntl, temp) p =
            (tl.erase p.1.1, ntl ++ [p.1.1], tempExtend states0 (dests p.2) temp) := by
          simp [mdpCatStep, hc, hmem]
        rw [List.foldl_cons, hstep, ← happ]
        have hkpre : keyOK check pre p.1.1 := by
          rw [htl] at hmem
          simpa using (List.mem_filter.mp hmem).2
        refine ih (pre ++ [p]) _ _ _ (fun q hq => hsrc q (by simp [hq])) ?_ ?_ ?_ htemp'.1 htempmem
        · rw [htl]
          rw [List.Nodup.erase_eq_filter (h0.filter _) p.1.1]
          rw [List.filter_filter]
          apply List.filter_congr
          intro t _
          rw [Bool.eq_iff_iff]
          simp only [Bool.and_eq_true, decide_eq_true_eq, bne_iff_ne, ne_eq,
            keyOK_append, keyOK_singleton]
          constructor
          · rintro ⟨hne, hk⟩
            exact ⟨hk, fun hpt => absurd hpt.symm hne⟩
          · rintro ⟨hk, himp⟩
            refine ⟨fun hte => ?_, hk⟩
            exact hc (by simpa [hte] using himp hte.symm)
        · intro t
          simp only [List.mem_append, List.mem_singleton, hntl t, keyOK_append,
            keyOK_singleton]
          constructor
          · rintro (⟨h1, h2⟩ | rfl)
            · exact ⟨h1, fun hh => h2 hh.1⟩
            · exact ⟨hs, fun hh => hc (hh.2 rfl)⟩
          · rintro ⟨h1, h2⟩
            by_cases hts : t = p.1.1
            · exact Or.inr hts
            · refine Or.inl ⟨h1, fun hk => h2 ⟨hk, fun hpt => absurd hpt.symm hts⟩⟩
        · have hnotin : p.1.1 ∉ ntl := by
            rw [hntl p.1.1]
            rintro ⟨-, hk⟩
            exact hk hkpre
          simp [List.nodup_append, hnd, List.disjoint_singleton, hnotin]
      · have hstep : mdpCatStep check dests states0 (tl, ntl, temp) p =
            (tl, ntl, tempExtend states0 (dests p.2) temp) := by
          simp [mdpCatStep, hc, hmem]
        rw [List.foldl_cons, hstep, ← happ]
        have hkpre : ¬ keyOK check pre p.1.1 := by
          intro hk
          apply hmem
          rw [htl]
          exact List.mem_filter.mpr ⟨hs, by simpa using hk⟩
        refine ih (pre ++ [p]) _ _ _ (fun q hq => hsrc q (by simp [hq])) ?_ ?_ hnd htemp'.1 htempmem
        · rw [htl]
          apply List.filter_congr
          intro t _
          simp only [decide_eq_decide, keyOK_append, keyOK_singleton]
          constructor
          · intro h
            refine ⟨h, fun hpt => ?_⟩
            exact absurd (hpt ▸ h : keyOK check pre p.1.1) hkpre
          · exact fun h => h.1
        · intro t
          rw [hntl t]
          simp only [keyOK_append, keyOK_singleton]
          constructor
          · rintro ⟨h1, h2⟩
            exact ⟨h1, fun hh => h2 hh.1⟩
          · rintro ⟨h1, h2⟩
            refine ⟨h1, fun hk => ?_⟩
            by_cases hts : p.1.1 = t
            · exact hkpre (hts ▸ hk)
            · exact h2 ⟨hk, fun hpt => absurd hpt hts⟩

/-- Facts about `MDP._categorize_states` as invoked by the constructor
(with `states0` the deduplicated source states): membership
characterizations of the three resulting lists, their nodup-ness, all
relative to the final augmented `all_states`. -/
lemma mdpCategorize_facts (check : S → ρ → Bool) (dests : ρ → List S)
    (inp : List ((S × A) × ρ)) :
    (∀ t, t ∈ (mdpCategorize check dests (mdpGetAllStates inp).1 inp).2.1 ↔
        t ∈ (mdpCategorize check dests (mdpGetAllStates inp).1 inp).1 ∧
          keyOK check inp t) ∧
    (∀ t, t ∈ (mdpCategorize check dests (mdpGetAllStates inp).1 inp).2.2 ↔
        t ∈ (mdpGetAllStates inp).1 ∧ ¬ keyOK check inp t) ∧
    (mdpCategorize check dests (mdpGetAllStates inp).1 inp).1.Nodup ∧
    (mdpCategorize check dests (mdpGetAllStates inp).1 inp).2.1.Nodup ∧
    (mdpCategorize check dests (mdpGetAllStates inp).1 inp).2.2.Nodup ∧
    (∀ t, t ∈ (mdpCategorize check dests (mdpGetAllStates inp).1 inp).1 ↔
        t ∈ (mdpGetAllStates inp).1 ∨ ∃ p ∈ inp, t ∈ dests p.2) := by
  have h0 : (mdpGetAllStates inp).1.Nodup := mdpGetAllStates_nodup inp
  have hsrc : ∀ p ∈ inp, p.1.1 ∈ (mdpGetAllStates inp).1 :=
    fun p hp => (mem_mdpGetAllStates inp p.1.1).mpr ⟨p, hp, rfl⟩
  have hinit_tl : (mdpGetAllStates inp).1 =
      (mdpGetAllStates inp).1.filter
        (fun t => decide (keyOK check ([] : List ((S × A) × ρ)) t)) := by
    symm
    rw [List.filter_eq_self]
    intro a _
    simpa using keyOK_nil check a
  have loop := mdpCatLoop_spec check dests (mdpGetAllStates inp).1 h0 inp []
    (mdpGetAllStates inp).1 [] [] hsrc hinit_tl
    (fun t => iff_of_false (List.not_mem_nil t)
      (fun hr => hr.2 (keyOK_nil check t)))
    List.nodup_nil List.nodup_nil (fun t => by simp)
  simp only [List.nil_append] at loop
  obtain ⟨ltl, lntl, lnd, ltd, ltemp⟩ := loop
  have hresult : mdpCategorize check dests (mdpGetAllStates inp).1 inp =
      ((mdpGetAllStates inp).1 ++
        (inp.foldl (mdpCatStep check dests (mdpGetAllStates inp).1)
          ((mdpGetAllStates inp).1, [], [])).2.2,
       (inp.foldl (mdpCatStep check dests (mdpGetAllStates inp).1)
          ((mdpGetAllStates inp).1, [], [])).1 ++
        (inp.foldl (mdpCatStep check dests (mdpGetAllStates inp).1)
          ((mdpGetAllStates inp).1, [], [])).2.2,
       (inp.foldl (mdpCatStep check dests (mdpGetAllStates inp).1)
          ((mdpGetAllStates inp).1, [], [])).2.1) := rfl
  rw [hresult]
  have htempS0 : ∀ t,
      t ∈ (inp.foldl (mdpCatStep check dests (mdpGetAllStates inp).1)
        ((mdpGetAllStates inp).1, [], [])).2.2 → t ∉ (mdpGetAllStates inp).1 :=
    fun t ht => ((ltemp t).mp ht).1
  have hallmem : ∀ t,
      t ∈ (mdpGetAllStates inp).1 ++
        (inp.foldl (mdpCatStep check dests (mdpGetAllStates inp).1)
          ((mdpGetAllStates inp).1, [], [])).2.2 ↔
      t ∈ (mdpGetAllStates inp).1 ∨ ∃ p ∈ inp, t ∈ dests p.2 := by
    intro t
    rw [List.mem_append, ltemp t]
    constructor
    · rintro (ht | ⟨-, hd⟩)
      · exact Or.inl ht
      · exact Or.inr hd
    · rintro (ht | hd)
      · exact Or.inl ht
      · by_cases hts : t ∈ (mdpGetAllStates inp).1
        · exact Or.inl hts
        · exact Or.inr ⟨hts, hd⟩
  refine ⟨?_, ?_, ?_, ?_, lnd, hallmem⟩
  · intro t
    rw [List.mem_append, ltl, hallmem t, List.mem_filter]
    constructor
    · rintro (⟨ht, hk⟩ | ht)
      · exact ⟨Or.inl ht, by simpa using hk⟩
      · obtain ⟨hns, hd⟩ := (ltemp t).mp ht
        refine ⟨Or.inr hd, fun p hp hpt => absurd (hpt ▸ hsrc p hp) hns⟩
    · rintro ⟨ht | hd, hk⟩
      · exact Or.inl ⟨ht, by simpa using hk⟩
      · by_cases hts : t ∈ (mdpGetAllStates inp).1
        · exact Or.inl ⟨hts, by simpa using hk⟩
        · exact Or.inr ((ltemp t).mpr ⟨hts, hd⟩)
  · exact lntl
  · rw [List.nodup_append]
    exact ⟨h0, ltd, fun a ha ha2 => (htempS0 a ha2) ha⟩
  · rw [List.nodup_append]
    refine ⟨ltl ▸ h0.filter _, ltd, fun a ha ha2 => ?_⟩
    have : a ∈ (mdpGetAllStates inp).1 := by
      rw [ltl] at ha
      exact (List.mem_filter.mp ha).1
    exact (htempS0 a ha2) this

/-- Keys written by the shared-branch assignment loop of
`MDP._assign_transition_matrix` never have a terminal source (the updates
are guarded by the terminal test). -/
lemma mdpAssignS_keys (tl : List S) (inp : SATSff S A) :
    ∀ acc : List ((S × A) × List (S × ℚ)) × List ((S × A) × List (S × ℚ)),
    (∀ k : S × A, (k ∈ dictKeys acc.1 ∨ k ∈ dictKeys acc.2) → k.1 ∉ tl) →
    ∀ k : S × A,
      (k ∈ dictKeys (inp.foldl
          (fun acc p =>
            if p.1.1 ∈ tl then acc
            else
              (dictUpdate acc.1 p.1 p.2.1,
               dictUpdate acc.2 p.1 (p.2.1.map fun q => (q.1, p.2.2)))) acc).1 ∨
       k ∈ dictKeys (inp.foldl
          (fun acc p =>
            if p.1.1 ∈ tl then acc
            else
              (dictUpdate acc.1 p.1 p.2.1,
               dictUpdate acc.2 p.1 (p.2.1.map fun q => (q.1, p.2.2)))) acc).2) →
      k.1 ∉ tl := by
  induction inp with
  | nil => intro acc hacc k hk; exact hacc k hk
  | cons p inp ih =>
    intro acc hacc k
    simp only [List.foldl_cons]
    by_cases hp : p.1.1 ∈ tl
    · rw [if_pos hp]
      exact ih acc hacc k
    · rw [if_neg hp]
      refine ih _ ?_ k
      intro k2 hk2
      rcases hk2 with hk2 | hk2 <;> rw [mem_dictKeys_update] at hk2 <;>
        rcases hk2 with hk2 | rfl
      · exact hacc k2 (Or.inl hk2)
      · exact hp
      · exact hacc k2 (Or.inr hk2)
      · exact hp

/-- When the buggy fine-grained assignment loop of
`MDP._assign_transition_matrix` completes, every declared key — terminal
sources included — has been written into both matrices. -/
lemma mdpAssignF_loop_keys (tl : List S) :
    ∀ (inp : SASTff S A)
      (acc res : List ((S × A) × List (S × ℚ)) × List ((S × A) × List (S × ℚ)) ×
        Option (List (S × ℚ)) × Option (List (S × ℚ))),
    inp.foldlM
      (fun acc p =>
        let sv : Option (List (S × ℚ)) := if p.1.1 ∈ tl then acc.2.2.1
          else some (p.2.map fun (q : S × (ℚ × ℚ)) => (q.1, q.2.1))
        let rv : Option (List (S × ℚ)) := if p.1.1 ∈ tl then acc.2.2.2
          else some (p.2.map fun (q : S × (ℚ × ℚ)) => (q.1, q.2.2))
        match sv, rv with
        | some v, some w =>
          Except.ok (dictUpdate acc.1 p.1 v, dictUpdate acc.2.1 p.1 w, some v, some w)
        | _, _ =>
          (Except.error "NameError: name 'state_value' is not defined" :
            Except String _)) acc = Except.ok res →
    (∀ k : S × A, k ∈ dictKeys acc.1 → k ∈ dictKeys res.1) ∧
    (∀ k : S × A, k ∈ dictKeys acc.2.1 → k ∈ dictKeys res.2.1) ∧
    (∀ p ∈ inp, p.1 ∈ dictKeys res.1 ∧ p.1 ∈ dictKeys res.2.1) := by
  intro inp
  induction inp with
  | nil =>
    intro acc res h
    simp only [List.foldlM_nil] at h
    injection h with h
    subst h
    exact ⟨fun k hk => hk, fun k hk => hk, fun p hp => absurd hp (List.not_mem_nil p)⟩
  | cons p inp ih =>
    intro acc res h
    simp only [List.foldlM_cons] at h
    rcases hsv : (if p.1.1 ∈ tl then acc.2.2.1
        else some (p.2.map fun (q : S × (ℚ × ℚ)) => (q.1, q.2.1))) with _ | v <;>
      rcases hrv : (if p.1.1 ∈ tl then acc.2.2.2
        else some (p.2.map fun (q : S × (ℚ × ℚ)) => (q.1, q.2.2))) with _ | w <;>
      rw [hsv, hrv] at h <;>
      simp only [] at h
    · cases h
    · cases h
    · cases h
    · obtain ⟨mono1, mono2, hall⟩ := ih _ _ h
      refine ⟨fun k hk => mono1 k (by rw [mem_dictKeys_update]; exact Or.inl hk),
        fun k hk => mono2 k (by rw [mem_dictKeys_update]; exact Or.inl hk), ?_⟩
      intro q hq
      rcases List.mem_cons.mp hq with rfl | hq
      · exact ⟨mono1 q.1 (by rw [mem_dictKeys_update]; exact Or.inr rfl),
          mono2 q.1 (by rw [mem_dictKeys_update]; exact Or.inr rfl)⟩
      · exact hall q hq

/-- The partition facts of `MDP._categorize_states`: terminal and
non-terminal lists are disjoint, duplicate-free, and together cover the
augmented `all_states`. -/
lemma mdpPartition_facts (check : S → ρ → Bool) (dests : ρ → List S)
    (inp : List ((S × A) × ρ)) :
    (∀ s, ¬(s ∈ (mdpCategorize check dests (mdpGetAllStates inp).1 inp).2.1 ∧
            s ∈ (mdpCategorize check dests (mdpGetAllStates inp).1 inp).2.2)) ∧
    (mdpCategorize check dests (mdpGetAllStates inp).1 inp).2.1.Nodup ∧
    (mdpCategorize check dests (mdpGetAllStates inp).1 inp).2.2.Nodup ∧
    (mdpCategorize check dests (mdpGetAllStates inp).1 inp).1.Nodup ∧
    (∀ s, s ∈ (mdpCategorize check dests (mdpGetAllStates inp).1 inp).2.1 ∨
          s ∈ (mdpCategorize check dests (mdpGetAllStates inp).1 inp).2.2 ↔
          s ∈ (mdpCategorize check dests (mdpGetAllStates inp).1 inp).1) := by
  obtain ⟨tl_iff, ntl_iff, all_nodup, tl_nodup, ntl_nodup, all_iff⟩ :=
    mdpCategorize_facts check dests inp
  have hsrc : ∀ p ∈ inp, p.1.1 ∈ (mdpGetAllStates inp).1 :=
    fun p hp => (mem_mdpGetAllStates inp p.1.1).mpr ⟨p, hp, rfl⟩
  refine ⟨?_, tl_nodup, ntl_nodup, all_nodup, ?_⟩
  · intro s ⟨hstl, hsntl⟩
    exact ((ntl_iff s).mp hsntl).2 ((tl_iff s).mp hstl).2
  · intro s
    constructor
    · rintro (hs | hs)
      · exact ((tl_iff s).mp hs).1
      · exact (all_iff s).mpr (Or.inl ((ntl_iff s).mp hs).1)
    · intro hs
      by_cases hk : keyOK check inp s
      · exact Or.inl ((tl_iff s).mpr ⟨hs, hk⟩)
      · refine Or.inr ((ntl_iff s).mpr ⟨?_, hk⟩)
        rcases (all_iff s).mp hs with h0 | ⟨p, hp, -⟩
        · exact h0
        · by_cases h0 : s ∈ (mdpGetAllStates inp).1
          · exact h0
          · exact absurd (fun q hq hqs => absurd (hqs ▸ hsrc q hq) h0) hk

/-- When the first declared key of a fine-grained MDP input has a terminal
source state, the assignment loop reads the unbound row variable and
raises. -/
lemma mdpAssignF_cons_terminal (tl : List S) (p : (S × A) × List (S × (ℚ × ℚ)))
    (rest : SASTff S A) (h : p.1.1 ∈ tl) :
    mdpAssignF tl (p :: rest) =
      Except.error "NameError: name 'state_value' is not defined" := by
  unfold mdpAssignF
  rw [List.foldlM_cons]
  simp only [h, if_pos]
  rfl

/-- Field projections of the shared-encoding MDP constructor. -/
lemma mkMDP_S_fields (inp : SATSff S A) (γ : ℚ) :
    (mkMDP_S inp γ).all_states =
      (mdpCategorize mdpCheckS mdpDestsS (mdpGetAllStates inp).1 inp).1 ∧
    (mkMDP_S inp γ).terminal_states =
      (mdpCategorize mdpCheckS mdpDestsS (mdpGetAllStates inp).1 inp).2.1 ∧
    (mkMDP_S inp γ).non_terminal_states =
      (mdpCategorize mdpCheckS mdpDestsS (mdpGetAllStates inp).1 inp).2.2 ∧
    (mkMDP_S inp γ).transition_matrix =
      mdpAssignS (mdpCategorize mdpCheckS mdpDestsS (mdpGetAllStates inp).1 inp).2.1 inp :=
  ⟨rfl, rfl, rfl, rfl⟩

/-- Field projections of a successfully constructed fine-encoding MDP. -/
lemma mkMDP_F_ok_fields (inp : SASTff S A) (γ : ℚ) (m : MDPModel S A)
    (h : mkMDP_F inp γ = .ok m) :
    m.all_states =
      (mdpCategorize mdpCheckF mdpDestsF (mdpGetAllStates inp).1 inp).1 ∧
    m.terminal_states =
      (mdpCategorize mdpCheckF mdpDestsF (mdpGetAllStates inp).1 inp).2.1 ∧
    m.non_terminal_states =
      (mdpCategorize mdpCheckF mdpDestsF (mdpGetAllStates inp).1 inp).2.2 ∧
    mdpAssignF (mdpCategorize mdpCheckF mdpDestsF (mdpGetAllStates inp).1 inp).2.1
      inp = .ok m.transition_matrix := by
  have h2 : (mdpAssignF
      (mdpCategorize mdpCheckF mdpDestsF (mdpGetAllStates inp).1 inp).2.1 inp).map
        (fun tm => (⟨γ, (mdpCategorize mdpCheckF mdpDestsF (mdpGetAllStates inp).1 inp).1,
          (mdpGetAllStates inp).2,
          (mdpCategorize mdpCheckF mdpDestsF (mdpGetAllStates inp).1 inp).2.1,
          (mdpCategorize mdpCheckF mdpDestsF (mdpGetAllStates inp).1 inp).2.2,
          tm⟩ : MDPModel S A)) = .ok m := h
  rcases ha : mdpAssignF
      (mdpCategorize mdpCheckF mdpDestsF (mdpGetAllStates inp).1 inp).2.1 inp
    with e | tm
  · rw [ha] at h2
    cases h2
  · rw [ha] at h2
    have h3 : (Except.ok
        (⟨γ, (mdpCategorize mdpCheckF mdpDestsF (mdpGetAllStates inp).1 inp).1,
          (mdpGetAllStates inp).2,
          (mdpCategorize mdpCheckF mdpDestsF (mdpGetAllStates inp).1 inp).2.1,
          (mdpCategorize mdpCheckF mdpDestsF (mdpGetAllStates inp).1 inp).2.2,
          tm⟩ : MDPModel S A) : Except String (MDPModel S A)) = .ok m := h2
    injection h3 with h3
    subst h3
    exact ⟨rfl, rfl, rfl, rfl⟩

end MDPLemmas

section ExceptLemmas

lemma except_map_ok {E X Y : Type} (f : X → Y) (e : Except E X) (y : Y)
    (h : e.map f = .ok y) : ∃ x, e = .ok x ∧ y = f x := by
  cases e with
  | error a => cases h
  | ok x =>
    refine ⟨x, rfl, ?_⟩
    injection h with h
    rw [h]

end ExceptLemmas

/-! ## Claims -/

/-- C1: [code bug in `MDP.get_mrp`] the spec says the reduction returns the
pair of policy-weighted matrices with the stated sums and completes without
raising, but the source subscripts the (state, action)-keyed transition
matrix with the triple `(s, a, s1)`; a 3-tuple never equals a 2-tuple key,
so the first subscript raises KeyError. Evaluated on a concrete 2-state MDP
under the uniform policy: the call raises instead of returning. -/
theorem C1_get_mrp_raises :
    getMrp (mkMDP_S mdpInputC1 1) (fun _ _ => 1) =
      Except.error "KeyError: (s, a, s1)" := by
  rfl

/-- C10: for every fine-grained-encoding MDP input whose first declared
(state, action) key has a terminal source state, the assignment loop of
`MDP._assign_transition_matrix` reads the never-assigned `state_value`
variable, so construction fails with an unhandled NameError instead of
producing an MDP object. -/
theorem C10_construction_raises (S A : Type) [DecidableEq S] [DecidableEq A]
    (s : S) (a : A) (row : List (S × (ℚ × ℚ))) (rest : SASTff S A) (γ : ℚ)
    (h : s ∈ (mdpCategorize mdpCheckF mdpDestsF
      (mdpGetAllStates (((s, a), row) :: rest)).1 (((s, a), row) :: rest)).2.1) :
    mkMDP_F (((s, a), row) :: rest) γ =
      Except.error "NameError: name 'state_value' is not defined" := by
  show (mdpAssignF (mdpCategorize mdpCheckF mdpDestsF
      (mdpGetAllStates (((s, a), row) :: rest)).1 (((s, a), row) :: rest)).2.1
      (((s, a), row) :: rest)).map (fun tm =>
        (⟨γ, (mdpCategorize mdpCheckF mdpDestsF
            (mdpGetAllStates (((s, a), row) :: rest)).1 (((s, a), row) :: rest)).1,
          (mdpGetAllStates (((s, a), row) :: rest)).2,
          (mdpCategorize mdpCheckF mdpDestsF
            (mdpGetAllStates (((s, a), row) :: rest)).1 (((s, a), row) :: rest)).2.1,
          (mdpCategorize mdpCheckF mdpDestsF
            (mdpGetAllStates (((s, a), row) :: rest)).1 (((s, a), row) :: rest)).2.2,
          tm⟩ : MDPModel S A)) =
      Except.error "NameError: name 'state_value' is not defined"
  rw [mdpAssignF_cons_terminal _ _ _ h]
  rfl

/-- Witness for C10 at a concrete input: state 3 is classified terminal and
construction raises the NameError. -/
theorem C10_witness :
    3 ∈ (mdpCategorize mdpCheckF mdpDestsF
      (mdpGetAllStates mdpInputC10).1 mdpInputC10).2.1 ∧
    mkMDP_F mdpInputC10 1 =
      Except.error "NameError: name 'state_value' is not defined" :=
  ⟨by decide,
   C10_construction_raises ℕ ℕ 3 0 [(3, (1, 0))] [((1, 0), [(3, (1, 5))])] 1
     (by decide)⟩

/-- C9: for every constructed MRP (either encoding) and every state s in
terminal_states, `get_random_sample(s)` returns ([s], 0): the while loop is
skipped (terminal and non-terminal states are disjoint by construction),
the terminal state is appended once, and the accumulated return is zero —
for any random oracle and any fuel. -/
theorem C9_terminal_sample (S : Type) [DecidableEq S]
    (env : SolveEnv) (pick : ℕ → List S → List ℚ → S) (fuel : ℕ) (s : S) :
    (∀ (inp : STSff S) (γ : ℚ) (m : MRPModel S), mkMRP_S env inp γ = .ok m →
      s ∈ m.terminal_states → getRandomSample m pick fuel s = some ([s], 0)) ∧
    (∀ (inp : SSTff S) (γ : ℚ) (m : MRPModel S), mkMRP_F env inp γ = .ok m →
      s ∈ m.terminal_states → getRandomSample m pick fuel s = some ([s], 0)) := by
  constructor
  · intro inp γ m hm hs
    obtain ⟨htl, hntl, -, -, -, -⟩ := mkMRP_S_ok_fields env inp γ m hm
    have hns : s ∉ m.non_terminal_states := by
      rw [hntl]
      intro hmem
      rw [htl] at hs
      exact mrpCategorizeWith_disjoint (mrpCheckS inp) (dictKeys inp) s ⟨hs, hmem⟩
    cases fuel <;> simp [getRandomSample, sampleLoop, hns]
  · intro inp γ m hm hs
    obtain ⟨htl, hntl, -, -, -, -⟩ := mkMRP_F_ok_fields env inp γ m hm
    have hns : s ∉ m.non_terminal_states := by
      rw [hntl]
      intro hmem
      rw [htl] at hs
      exact mrpCategorizeWith_disjoint (mrpCheckF inp) (dictKeys inp) s ⟨hs, hmem⟩
    cases fuel <;> simp [getRandomSample, sampleLoop, hns]

unseal Rat.mul Rat.add Rat.sub Rat.inv Rat.ofScientific in
/-- Witness for C9: on the concrete MRP, sampling from the terminal state 2
returns ([2], 0). -/
theorem C9_witness :
    mkMRP_S envC9 mrpInputC9 1 = Except.ok mrpModelC9 ∧
    2 ∈ mrpModelC9.terminal_states ∧
    getRandomSample mrpModelC9 (fun _ _ _ => 0) 5 2 = some ([2], 0) :=
  ⟨by decide, by decide,
   (C9_terminal_sample ℕ envC9 (fun _ _ _ => 0) 5 2).1 mrpInputC9 1 mrpModelC9
     (by decide) (by decide)⟩

/-- C7: during MRP construction (either encoding), when the linear solve
fails with a LinAlgError whose message contains 'Singular matrix', the
value function is computed by the least-squares solve instead, the warning
is recorded, and construction completes without raising; any other error
from the solve propagates to the caller unrecovered. -/
theorem C7_singular_fallback (S : Type) [DecidableEq S] :
    (∀ (env : SolveEnv) (inp : STSff S) (γ : ℚ) (e : PyErr),
      env.solve (mrpAmatS inp γ) (mrpRvecS inp) = .error e →
      ((e.isLinAlgError && strContains e.msg "Singular matrix") = true →
        mkMRP_S env inp γ = .ok ⟨γ, mrpTlS inp, mrpNtlS inp, mrpStmS inp,
          mrpRmS inp, mrpRfS inp,
          (mrpNtlS inp).zip (env.lstsq (mrpAmatS inp γ) (mrpRvecS inp)),
          [singularWarning]⟩) ∧
      ((e.isLinAlgError && strContains e.msg "Singular matrix") = false →
        mkMRP_S env inp γ = .error e)) ∧
    (∀ (env : SolveEnv) (inp : SSTff S) (γ : ℚ) (e : PyErr),
      env.solve (mrpAmatF inp γ) (mrpRvecF inp) = .error e →
      ((e.isLinAlgError && strContains e.msg "Singular matrix") = true →
        mkMRP_F env inp γ = .ok ⟨γ, mrpTlF inp, mrpNtlF inp, mrpStmF inp,
          mrpRmF inp, mrpRfF inp,
          (mrpNtlF inp).zip (env.lstsq (mrpAmatF inp γ) (mrpRvecF inp)),
          [singularWarning]⟩) ∧
      ((e.isLinAlgError && strContains e.msg "Singular matrix") = false →
        mkMRP_F env inp γ = .error e)) := by
  constructor
  · intro env inp γ e hs
    have havf := assignValueFunction_of_error env γ (mrpNtlS inp) (mrpStmS inp)
      (mrpRfS inp) e hs
    constructor
    · intro hc
      rw [mkMRP_S_eq, havf, if_pos hc]
      rfl
    · intro hc
      rw [mkMRP_S_eq, havf, if_neg (by rw [hc]; exact Bool.false_ne_true)]
  · intro env inp γ e hs
    have havf := assignValueFunction_of_error env γ (mrpNtlF inp) (mrpStmF inp)
      (mrpRfF inp) e hs
    constructor
    · intro hc
      rw [mkMRP_F_eq, havf, if_pos hc]
      rfl
    · intro hc
      rw [mkMRP_F_eq, havf, if_neg (by rw [hc]; exact Bool.false_ne_true)]

unseal Rat.mul Rat.add Rat.sub Rat.inv Rat.ofScientific in
/-- Witness for C7: under the always-singular solver the concrete
construction completes via the least-squares path with the warning. -/
theorem C7_witness :
    envC7.solve (mrpAmatS mrpInputC7 1) (mrpRvecS mrpInputC7) =
      .error ⟨true, "Singular matrix"⟩ ∧
    mkMRP_S envC7 mrpInputC7 1 = .ok ⟨1, mrpTlS mrpInputC7, mrpNtlS mrpInputC7,
      mrpStmS mrpInputC7, mrpRmS mrpInputC7, mrpRfS mrpInputC7,
      (mrpNtlS mrpInputC7).zip
        (envC7.lstsq (mrpAmatS mrpInputC7 1) (mrpRvecS mrpInputC7)),
      [singularWarning]⟩ :=
  ⟨rfl,
   ((C7_singular_fallback ℕ).1 envC7 mrpInputC7 1 ⟨true, "Singular matrix"⟩
     rfl).1 (by decide)⟩

/-- C6 (amended): querying with keys absent from the stored mappings
returns an absent result without raising only for the single-`.get` paths:
`get_value` and `get_expected_reward` return None for any state outside
`non_terminal_states` (in particular for terminal states) on every
constructed MRP of either encoding, and `query_Pr`
returns None for an unknown destination when `(s, a)` is known; but
`query_Pr` on an unknown `(state, action)` key chains `.get` off `None` and
raises an AttributeError instead of returning an absent result. -/
theorem C6_missing_key_queries (S A : Type) [DecidableEq S] [DecidableEq A] :
    (∀ (m : MDPModel S A) (s : S) (a : A) (s1 : S),
      dictGet m.transition_matrix.1 (s, a) = none →
      queryPr m s a s1 =
        .error "AttributeError: 'NoneType' object has no attribute 'get'") ∧
    (∀ (m : MDPModel S A) (s : S) (a : A) (s1 : S)
      (row : List (S × ℚ)),
      dictGet m.transition_matrix.1 (s, a) = some row →
      queryPr m s a s1 = .ok (dictGet row s1)) ∧
    (∀ (env : SolveEnv) (inp : STSff S) (γ : ℚ) (m : MRPModel S) (s : S),
      mkMRP_S env inp γ = .ok m → s ∉ m.non_terminal_states →
      getValue m s = none ∧ getExpectedReward m s = none) ∧
    (∀ (env : SolveEnv) (inp : STSff S) (γ : ℚ) (m : MRPModel S) (s : S),
      mkMRP_S env inp γ = .ok m → s ∈ m.terminal_states →
      s ∉ m.non_terminal_states) ∧
    (∀ (env : SolveEnv) (inp : SSTff S) (γ : ℚ) (m : MRPModel S) (s : S),
      mkMRP_F env inp γ = .ok m → s ∉ m.non_terminal_states →
      getValue m s = none ∧ getExpectedReward m s = none) ∧
    (∀ (env : SolveEnv) (inp : SSTff S) (γ : ℚ) (m : MRPModel S) (s : S),
      mkMRP_F env inp γ = .ok m → s ∈ m.terminal_states →
      s ∉ m.non_terminal_states) := by
  refine ⟨?_, ?_, ?_, ?_, ?_, ?_⟩
  · intro m s a s1 h
    simp [queryPr, h]
  · intro m s a s1 row h
    simp [queryPr, h]
  · intro env inp γ m s hm hs
    obtain ⟨-, hntl, -, -, hrf, V, hvf⟩ := mkMRP_S_ok_fields env inp γ m hm
    rw [hntl] at hs
    constructor
    · rw [getValue, hvf]
      exact dictGet_zip_eq_none _ _ _ hs
    · rw [getExpectedReward, hrf]
      rw [dictGet_eq_none_iff]
      intro hmem
      rw [mrpRfS, assignRewardFunction_eq] at hmem
      rw [mem_dictKeys_foldl_update] at hmem
      rcases hmem with hmem | hmem
      · simp [dictKeys] at hmem
      · apply hs
        rw [show mrpRmS inp = (mrpAssignS inp (mrpNtlS inp)).2 from rfl,
          mrpAssignS_eq] at hmem
        rw [mem_mrpAssign_keys] at hmem
        exact hmem
  · intro env inp γ m s hm hs
    obtain ⟨htl, hntl, -, -, -, -⟩ := mkMRP_S_ok_fields env inp γ m hm
    rw [htl] at hs
    rw [hntl]
    intro hmem
    exact mrpCategorizeWith_disjoint (mrpCheckS inp) (dictKeys inp) s ⟨hs, hmem⟩
  · intro env inp γ m s hm hs
    obtain ⟨-, hntl, -, -, hrf, V, hvf⟩ := mkMRP_F_ok_fields env inp γ m hm
    rw [hntl] at hs
    constructor
    · rw [getValue, hvf]
      exact dictGet_zip_eq_none _ _ _ hs
    · rw [getExpectedReward, hrf]
      rw [dictGet_eq_none_iff]
      intro hmem
      rw [mrpRfF, assignRewardFunction_eq] at hmem
      rw [mem_dictKeys_foldl_update] at hmem
      rcases hmem with hmem | hmem
      · simp [dictKeys] at hmem
      · apply hs
        rw [show mrpRmF inp = (mrpAssignF inp (mrpNtlF inp)).2 from rfl,
          mrpAssignF_eq] at hmem
        rw [mem_mrpAssign_keys] at hmem
        exact hmem
  · intro env inp γ m s hm hs
    obtain ⟨htl, hntl, -, -, -, -⟩ := mkMRP_F_ok_fields env inp γ m hm
    rw [htl] at hs
    rw [hntl]
    intro hmem
    exact mrpCategorizeWith_disjoint (mrpCheckF inp) (dictKeys inp) s ⟨hs, hmem⟩

/-- C6 counterexample: the claim says such queries never raise, but
`query_Pr` on the unknown (state, action) pair (5, 0) raises an
AttributeError. -/
theorem C6_cex_query_pr_raises :
    queryPr (mkMDP_S mdpInputC6 1) 5 0 1 =
      .error "AttributeError: 'NoneType' object has no attribute 'get'" := by
  rfl

unseal Rat.mul Rat.add Rat.sub Rat.inv Rat.ofScientific in
/-- Witness for C6: concrete queries on missing keys — `query_Pr` with a
known key and unknown destination yields None, and `get_value` and
`get_expected_reward` on the terminal state 2 yield None, for one MRP
constructed from each encoding. -/
theorem C6_witness :
    queryPr (mkMDP_S mdpInputC6 1) 1 0 7 = .ok none ∧
    mkMRP_S envC6 mrpInputC6 1 = .ok mrpModelC6 ∧
    getValue mrpModelC6 2 = none ∧
    getExpectedReward mrpModelC6 2 = none ∧
    2 ∉ mrpModelC6.non_terminal_states ∧
    mkMRP_F envC6 mrpInputC6f 1 = .ok mrpModelC6f ∧
    getValue mrpModelC6f 2 = none ∧
    getExpectedReward mrpModelC6f 2 = none ∧
    2 ∉ mrpModelC6f.non_terminal_states :=
  ⟨(C6_missing_key_queries ℕ ℕ).2.1 (mkMDP_S mdpInputC6 1) 1 0 7 [(2, 1)]
     (by decide),
   by decide,
   ((C6_missing_key_queries ℕ ℕ).2.2.1 envC6 mrpInputC6 1 mrpModelC6 2
     (by decide) (by decide)).1,
   ((C6_missing_key_queries ℕ ℕ).2.2.1 envC6 mrpInputC6 1 mrpModelC6 2
     (by decide) (by decide)).2,
   (C6_missing_key_queries ℕ ℕ).2.2.2.1 envC6 mrpInputC6 1 mrpModelC6 2
     (by decide) (by decide),
   by decide,
   ((C6_missing_key_queries ℕ ℕ).2.2.2.2.1 envC6 mrpInputC6f 1 mrpModelC6f 2
     (by decide) (by decide)).1,
   ((C6_missing_key_queries ℕ ℕ).2.2.2.2.1 envC6 mrpInputC6f 1 mrpModelC6f 2
     (by decide) (by decide)).2,
   (C6_missing_key_queries ℕ ℕ).2.2.2.2.2 envC6 mrpInputC6f 1 mrpModelC6f 2
     (by decide) (by decide)⟩

/-- C8: for every constructed MRP (either encoding, given the Python
guarantee that dictionary keys are unique) terminal_states and
non_terminal_states are disjoint duplicate-free sequences whose union is
the full state set (the declared source keys); for every constructed MDP
(either encoding) the same holds with the union equal to the augmented
all_states. -/
theorem C8_state_partition (S A : Type) [DecidableEq S] [DecidableEq A] :
    (∀ inp : SSTff S, (dictKeys inp).Nodup →
      (∀ s, ¬(s ∈ mrpTlF inp ∧ s ∈ mrpNtlF inp)) ∧
      (mrpTlF inp).Nodup ∧ (mrpNtlF inp).Nodup ∧
      (∀ s, s ∈ mrpTlF inp ∨ s ∈ mrpNtlF inp ↔ s ∈ dictKeys inp)) ∧
    (∀ inp : STSff S, (dictKeys inp).Nodup →
      (∀ s, ¬(s ∈ mrpTlS inp ∧ s ∈ mrpNtlS inp)) ∧
      (mrpTlS inp).Nodup ∧ (mrpNtlS inp).Nodup ∧
      (∀ s, s ∈ mrpTlS inp ∨ s ∈ mrpNtlS inp ↔ s ∈ dictKeys inp)) ∧
    (∀ (inp : SATSff S A) (γ : ℚ),
      (∀ s, ¬(s ∈ (mkMDP_S inp γ).terminal_states ∧
              s ∈ (mkMDP_S inp γ).non_terminal_states)) ∧
      (mkMDP_S inp γ).terminal_states.Nodup ∧
      (mkMDP_S inp γ).non_terminal_states.Nodup ∧
      (mkMDP_S inp γ).all_states.Nodup ∧
      (∀ s, s ∈ (mkMDP_S inp γ).terminal_states ∨
            s ∈ (mkMDP_S inp γ).non_terminal_states ↔
            s ∈ (mkMDP_S inp γ).all_states)) ∧
    (∀ (inp : SASTff S A) (γ : ℚ) (m : MDPModel S A), mkMDP_F inp γ = .ok m →
      (∀ s, ¬(s ∈ m.terminal_states ∧ s ∈ m.non_terminal_states)) ∧
      m.terminal_states.Nodup ∧ m.non_terminal_states.Nodup ∧
      m.all_states.Nodup ∧
      (∀ s, s ∈ m.terminal_states ∨ s ∈ m.non_terminal_states ↔
            s ∈ m.all_states)) := by
  refine ⟨?_, ?_, ?_, ?_⟩
  · intro inp hkeys
    refine ⟨fun s => mrpCategorizeWith_disjoint (mrpCheckF inp) (dictKeys inp) s,
      ?_, ?_, fun s => ?_⟩
    · rw [show mrpTlF inp =
        (mrpCategorizeWith (mrpCheckF inp) (dictKeys inp)).1 from rfl,
        mrpCategorizeWith_spec]
      exact hkeys.filter _
    · rw [show mrpNtlF inp =
        (mrpCategorizeWith (mrpCheckF inp) (dictKeys inp)).2 from rfl,
        mrpCategorizeWith_spec]
      exact hkeys.filter _
    · rw [show mrpTlF inp =
        (mrpCategorizeWith (mrpCheckF inp) (dictKeys inp)).1 from rfl,
        show mrpNtlF inp =
        (mrpCategorizeWith (mrpCheckF inp) (dictKeys inp)).2 from rfl,
        mem_mrpCategorizeWith_fst, mem_mrpCategorizeWith_snd]
      constructor
      · rintro (⟨h, -⟩ | ⟨h, -⟩) <;> exact h
      · intro h
        rcases hc : mrpCheckF inp s with - | -
        · exact Or.inr ⟨h, rfl⟩
        · exact Or.inl ⟨h, rfl⟩
  · intro inp hkeys
    refine ⟨fun s => mrpCategorizeWith_disjoint (mrpCheckS inp) (dictKeys inp) s,
      ?_, ?_, fun s => ?_⟩
    · rw [show mrpTlS inp =
        (mrpCategorizeWith (mrpCheckS inp) (dictKeys inp)).1 from rfl,
        mrpCategorizeWith_spec]
      exact hkeys.filter _
    · rw [show mrpNtlS inp =
        (mrpCategorizeWith (mrpCheckS inp) (dictKeys inp)).2 from rfl,
        mrpCategorizeWith_spec]
      exact hkeys.filter _
    · rw [show mrpTlS inp =
        (mrpCategorizeWith (mrpCheckS inp) (dictKeys inp)).1 from rfl,
        show mrpNtlS inp =
        (mrpCategorizeWith (mrpCheckS inp) (dictKeys inp)).2 from rfl,
        mem_mrpCategorizeWith_fst, mem_mrpCategorizeWith_snd]
      constructor
      · rintro (⟨h, -⟩ | ⟨h, -⟩) <;> exact h
      · intro h
        rcases hc : mrpCheckS inp s with - | -
        · exact Or.inr ⟨h, rfl⟩
        · exact Or.inl ⟨h, rfl⟩
  · intro inp γ
    obtain ⟨hdisj, htlnd, hntlnd, hallnd, hunion⟩ :=
      mdpPartition_facts mdpCheckS mdpDestsS inp
    obtain ⟨hall, htl, hntl, -⟩ := mkMDP_S_fields inp γ
    rw [hall, htl, hntl]
    exact ⟨hdisj, htlnd, hntlnd, hallnd, hunion⟩
  · intro inp γ m hm
    obtain ⟨hdisj, htlnd, hntlnd, hallnd, hunion⟩ :=
      mdpPartition_facts mdpCheckF mdpDestsF inp
    obtain ⟨hall, htl, hntl, -⟩ := mkMDP_F_ok_fields inp γ m hm
    rw [hall, htl, hntl]
    exact ⟨hdisj, htlnd, hntlnd, hallnd, hunion⟩

/-- Witness for C8 at concrete inputs: the partition facts hold for a
concrete MRP and a concrete MDP. -/
theorem C8_witness :
    ((1 ∈ mrpTlS mrpInputC8 ∨ 1 ∈ mrpNtlS mrpInputC8) ↔
      1 ∈ dictKeys mrpInputC8) ∧
    (mrpTlS mrpInputC8).Nodup ∧
    (¬(2 ∈ (mkMDP_S mdpInputC8 1).terminal_states ∧
       2 ∈ (mkMDP_S mdpInputC8 1).non_terminal_states)) ∧
    (mkMDP_S mdpInputC8 1).all_states.Nodup :=
  ⟨((C8_state_partition ℕ ℕ).2.1 mrpInputC8 (by decide)).2.2.2 1,
   ((C8_state_partition ℕ ℕ).2.1 mrpInputC8 (by decide)).2.1,
   ((C8_state_partition ℕ ℕ).2.2.1 mdpInputC8 1).1 2,
   ((C8_state_partition ℕ ℕ).2.2.1 mdpInputC8 1).2.2.2.1⟩

/-- C2 counterexample: state 0 has a declared action (action 0) whose
destination-probability map is exactly {0: 1.0}, so by the claim 0 would
be terminal; the code classifies 0 as non-terminal because its other
action fails the self-transition test — a single qualifying action does
not suffice. -/
theorem C2_cex_exists_action :
    dictGet mdpInputC2 (0, 0) = some ([(0, 1)], 0) ∧
    0 ∉ (mkMDP_S mdpInputC2 1).terminal_states ∧
    0 ∈ (mkMDP_S mdpInputC2 1).non_terminal_states := by
  refine ⟨by decide, by decide, by decide⟩

/-- C2 (amended): for every constructed MDP (either encoding), a state s
is terminal iff s belongs to the (augmented) state set and every declared
key (s, a) passes the self-transition test — the probability entry
recorded for s itself equals exactly 1 (the map may list further
destinations, a single qualifying action among several does not suffice,
and destination-only states are terminal vacuously). -/
theorem C2_terminal_iff (S A : Type) [DecidableEq S] [DecidableEq A] :
    (∀ (inp : SATSff S A) (γ : ℚ) (s : S),
      s ∈ (mkMDP_S inp γ).terminal_states ↔
        s ∈ (mkMDP_S inp γ).all_states ∧ keyOK mdpCheckS inp s) ∧
    (∀ (inp : SASTff S A) (γ : ℚ) (m : MDPModel S A), mkMDP_F inp γ = .ok m →
      ∀ s, s ∈ m.terminal_states ↔
        s ∈ m.all_states ∧ keyOK mdpCheckF inp s) := by
  constructor
  · intro inp γ s
    obtain ⟨hall, htl, -, -⟩ := mkMDP_S_fields inp γ
    rw [hall, htl]
    exact (mdpCategorize_facts mdpCheckS mdpDestsS inp).1 s
  · intro inp γ m hm s
    obtain ⟨hall, htl, -, -⟩ := mkMDP_F_ok_fields inp γ m hm
    rw [hall, htl]
    exact (mdpCategorize_facts mdpCheckF mdpDestsF inp).1 s

/-- Witness for C2 at a concrete fine-encoding MDP. -/
theorem C2_witness :
    mkMDP_F mdpInputC2w 1 = Except.ok mdpModelC2w ∧
    (1 ∈ mdpModelC2w.terminal_states ↔
      1 ∈ mdpModelC2w.all_states ∧ keyOK mdpCheckF mdpInputC2w 1) :=
  ⟨by decide,
   (C2_terminal_iff ℕ ℕ).2 mdpInputC2w 1 mdpModelC2w (by decide) 1⟩

unseal Rat.mul Rat.add Rat.sub Rat.inv Rat.ofScientific in
/-- C3 counterexample: in the MRP, state 2 appears as a destination of a
transition entry and never as a declared source key, yet after
construction it is a member of neither terminal_states nor
non_terminal_states — MRP construction does not add it anywhere. -/
theorem C3_cex_mrp_not_added :
    (∃ p ∈ mrpInputC3, 2 ∈ dictKeys p.2.1) ∧
    2 ∉ dictKeys mrpInputC3 ∧
    mkMRP_S envC3cex mrpInputC3 1 = .ok mrpModelC3 ∧
    2 ∉ mrpModelC3.terminal_states ∧ 2 ∉ mrpModelC3.non_terminal_states := by
  refine ⟨⟨(1, ([(2, 1)], 0)), by decide, by decide⟩, by decide, by decide,
    by decide, by decide⟩

/-- C3 (amended): in MDP construction (either encoding), every state
appearing as a destination but never as a declared source is appended to
all_states and terminal_states; MRP construction performs no such
augmentation — its terminal and non-terminal lists only ever contain
declared source keys, so destination-only states end up in neither. -/
theorem C3_implicit_terminal (S A : Type) [DecidableEq S] [DecidableEq A] :
    (∀ (inp : SATSff S A) (γ : ℚ) (s1 : S),
      (∃ p ∈ inp, s1 ∈ mdpDestsS p.2) → (∀ p ∈ inp, p.1.1 ≠ s1) →
      s1 ∈ (mkMDP_S inp γ).all_states ∧
      s1 ∈ (mkMDP_S inp γ).terminal_states) ∧
    (∀ (inp : SASTff S A) (γ : ℚ) (m : MDPModel S A), mkMDP_F inp γ = .ok m →
      ∀ s1, (∃ p ∈ inp, s1 ∈ mdpDestsF p.2) → (∀ p ∈ inp, p.1.1 ≠ s1) →
      s1 ∈ m.all_states ∧ s1 ∈ m.terminal_states) ∧
    (∀ (env : SolveEnv) (inp : STSff S) (γ : ℚ) (m : MRPModel S) (s1 : S),
      mkMRP_S env inp γ = .ok m → s1 ∉ dictKeys inp →
      s1 ∉ m.terminal_states ∧ s1 ∉ m.non_terminal_states) ∧
    (∀ (env : SolveEnv) (inp : SSTff S) (γ : ℚ) (m : MRPModel S) (s1 : S),
      mkMRP_F env inp γ = .ok m → s1 ∉ dictKeys inp →
      s1 ∉ m.terminal_states ∧ s1 ∉ m.non_terminal_states) := by
  refine ⟨?_, ?_, ?_, ?_⟩
  · intro inp γ s1 hdest hnsrc
    obtain ⟨htl_iff, -, -, -, -, hall_iff⟩ :=
      mdpCategorize_facts mdpCheckS mdpDestsS inp
    obtain ⟨hall, htl, -, -⟩ := mkMDP_S_fields inp γ
    rw [hall, htl]
    have hmem : s1 ∈ (mdpCategorize mdpCheckS mdpDestsS
        (mdpGetAllStates inp).1 inp).1 := (hall_iff s1).mpr (Or.inr hdest)
    exact ⟨hmem, (htl_iff s1).mpr ⟨hmem,
      fun p hp hps => absurd hps (hnsrc p hp)⟩⟩
  · intro inp γ m hm s1 hdest hnsrc
    obtain ⟨htl_iff, -, -, -, -, hall_iff⟩ :=
      mdpCategorize_facts mdpCheckF mdpDestsF inp
    obtain ⟨hall, htl, -, -⟩ := mkMDP_F_ok_fields inp γ m hm
    rw [hall, htl]
    have hmem : s1 ∈ (mdpCategorize mdpCheckF mdpDestsF
        (mdpGetAllStates inp).1 inp).1 := (hall_iff s1).mpr (Or.inr hdest)
    exact ⟨hmem, (htl_iff s1).mpr ⟨hmem,
      fun p hp hps => absurd hps (hnsrc p hp)⟩⟩
  · intro env inp γ m s1 hm hkeys
    obtain ⟨htl, hntl, -, -, -, -⟩ := mkMRP_S_ok_fields env inp γ m hm
    rw [htl, hntl]
    constructor
    · intro hmem
      exact hkeys ((mem_mrpCategorizeWith_fst (mrpCheckS inp)
        (dictKeys inp) _).mp hmem).1
    · intro hmem
      exact hkeys ((mem_mrpCategorizeWith_snd (mrpCheckS inp)
        (dictKeys inp) _).mp hmem).1
  · intro env inp γ m s1 hm hkeys
    obtain ⟨htl, hntl, -, -, -, -⟩ := mkMRP_F_ok_fields env inp γ m hm
    rw [htl, hntl]
    constructor
    · intro hmem
      exact hkeys ((mem_mrpCategorizeWith_fst (mrpCheckF inp)
        (dictKeys inp) _).mp hmem).1
    · intro hmem
      exact hkeys ((mem_mrpCategorizeWith_snd (mrpCheckF inp)
        (dictKeys inp) _).mp hmem).1

unseal Rat.mul Rat.add Rat.sub Rat.inv Rat.ofScientific in
/-- Witness for C3 at concrete inputs. -/
theorem C3_witness :
    (2 ∈ (mkMDP_S mdpInputC3w 1).all_states ∧
     2 ∈ (mkMDP_S mdpInputC3w 1).terminal_states) ∧
    mkMRP_S envC3 mrpInputC3w 1 = .ok mrpModelC3w ∧
    (2 ∉ mrpModelC3w.terminal_states ∧ 2 ∉ mrpModelC3w.non_terminal_states) :=
  ⟨(C3_implicit_terminal ℕ ℕ).1 mdpInputC3w 1 2
     ⟨((1, 0), ([(2, 1)], 0)), by decide, by decide⟩ (by decide),
   by decide,
   (C3_implicit_terminal ℕ ℕ).2.2.1 envC3 mrpInputC3w 1 mrpModelC3w 2
     (by decide) (by decide)⟩

/-- C4 counterexample: in the MDP fine-grained encoding, the terminal
state 2 occurs as the source component of the key (2, 0) in both the
state-transition matrix and the reward matrix after construction. -/
theorem C4_cex_terminal_key_written :
    mkMDP_F mdpInputC4 1 = Except.ok mdpModelC4 ∧
    2 ∈ mdpModelC4.terminal_states ∧
    (2, 0) ∈ dictKeys mdpModelC4.transition_matrix.1 ∧
    (2, 0) ∈ dictKeys mdpModelC4.transition_matrix.2 := by
  refine ⟨by decide, by decide, by decide, by decide⟩

/-- C4 (amended): after construction no terminal state occurs as a source
key of the MRP matrices (either encoding) nor of the MDP shared-encoding
matrices; in the MDP fine-grained encoding, however, every declared
(state, action) key — terminal sources included — is written into both
matrices whenever construction completes. -/
theorem C4_terminal_rows (S A : Type) [DecidableEq S] [DecidableEq A] :
    (∀ (env : SolveEnv) (inp : SSTff S) (γ : ℚ) (m : MRPModel S) (s : S),
      mkMRP_F env inp γ = .ok m → s ∈ m.terminal_states →
      s ∉ dictKeys m.state_transition_matrix ∧
      s ∉ dictKeys m.reward_matrix) ∧
    (∀ (env : SolveEnv) (inp : STSff S) (γ : ℚ) (m : MRPModel S) (s : S),
      mkMRP_S env inp γ = .ok m → s ∈ m.terminal_states →
      s ∉ dictKeys m.state_transition_matrix ∧
      s ∉ dictKeys m.reward_matrix) ∧
    (∀ (inp : SATSff S A) (γ : ℚ) (s : S) (a : A),
      s ∈ (mkMDP_S inp γ).terminal_states →
      (s, a) ∉ dictKeys (mkMDP_S inp γ).transition_matrix.1 ∧
      (s, a) ∉ dictKeys (mkMDP_S inp γ).transition_matrix.2) ∧
    (∀ (inp : SASTff S A) (γ : ℚ) (m : MDPModel S A), mkMDP_F inp γ = .ok m →
      ∀ p ∈ inp, p.1 ∈ dictKeys m.transition_matrix.1 ∧
        p.1 ∈ dictKeys m.transition_matrix.2) := by
  refine ⟨?_, ?_, ?_, ?_⟩
  · intro env inp γ m s hm hs
    obtain ⟨htl, hntl, hstm, hrm, -, -⟩ := mkMRP_F_ok_fields env inp γ m hm
    rw [htl] at hs
    have hns : s ∉ mrpNtlF inp := fun hmem =>
      mrpCategorizeWith_disjoint (mrpCheckF inp) (dictKeys inp) s ⟨hs, hmem⟩
    constructor
    · rw [hstm]
      intro hk
      apply hns
      rw [show mrpStmF inp = (mrpAssignF inp (mrpNtlF inp)).1 from rfl,
        mrpAssignF_eq] at hk
      exact (mem_mrpAssign_keys _ _ _).mp hk
    · rw [hrm]
      intro hk
      apply hns
      rw [show mrpRmF inp = (mrpAssignF inp (mrpNtlF inp)).2 from rfl,
        mrpAssignF_eq] at hk
      exact (mem_mrpAssign_keys _ _ _).mp hk
  · intro env inp γ m s hm hs
    obtain ⟨htl, hntl, hstm, hrm, -, -⟩ := mkMRP_S_ok_fields env inp γ m hm
    rw [htl] at hs
    have hns : s ∉ mrpNtlS inp := fun hmem =>
      mrpCategorizeWith_disjoint (mrpCheckS inp) (dictKeys inp) s ⟨hs, hmem⟩
    constructor
    · rw [hstm]
      intro hk
      apply hns
      rw [show mrpStmS inp = (mrpAssignS inp (mrpNtlS inp)).1 from rfl,
        mrpAssignS_eq] at hk
      exact (mem_mrpAssign_keys _ _ _).mp hk
    · rw [hrm]
      intro hk
      apply hns
      rw [show mrpRmS inp = (mrpAssignS inp (mrpNtlS inp)).2 from rfl,
        mrpAssignS_eq] at hk
      exact (mem_mrpAssign_keys _ _ _).mp hk
  · intro inp γ s a hs
    obtain ⟨-, htl, -, htm⟩ := mkMDP_S_fields inp γ
    rw [htl] at hs
    rw [htm]
    have hkeys := mdpAssignS_keys
      (mdpCategorize mdpCheckS mdpDestsS (mdpGetAllStates inp).1 inp).2.1 inp
      ([], [])
      (by
        rintro k (hk | hk) <;> simp [dictKeys] at hk)
    constructor
    · intro hk
      exact hkeys (s, a) (Or.inl hk) hs
    · intro hk
      exact hkeys (s, a) (Or.inr hk) hs
  · intro inp γ m hm p hp
    obtain ⟨-, -, -, htm⟩ := mkMDP_F_ok_fields inp γ m hm
    unfold mdpAssignF at htm
    obtain ⟨res, hres, htm2⟩ := except_map_ok _ _ _ htm
    have hall := (mdpAssignF_loop_keys
      (mdpCategorize mdpCheckF mdpDestsF (mdpGetAllStates inp).1 inp).2.1
      inp _ res hres).2.2 p hp
    rw [htm2]
    exact hall

unseal Rat.mul Rat.add Rat.sub Rat.inv Rat.ofScientific in
/-- Witness for C4 at concrete inputs: terminal source 2 is dropped from
the MRP matrices and from the shared-encoding MDP matrices, while in the
fine-grained MDP every declared key is written. -/
theorem C4_witness :
    mkMRP_S envC4 mrpInputC4w 1 = .ok mrpModelC4w ∧
    (2 ∉ dictKeys mrpModelC4w.state_transition_matrix ∧
     2 ∉ dictKeys mrpModelC4w.reward_matrix) ∧
    (2, 0) ∉ dictKeys (mkMDP_S mdpInputC4s 1).transition_matrix.1 ∧
    ((1, 0) ∈ dictKeys mdpModelC4.transition_matrix.1 ∧
     (1, 0) ∈ dictKeys mdpModelC4.transition_matrix.2) :=
  ⟨by decide,
   (C4_terminal_rows ℕ ℕ).2.1 envC4 mrpInputC4w 1 mrpModelC4w 2
     (by decide) (by decide),
   ((C4_terminal_rows ℕ ℕ).2.2.1 mdpInputC4s 1 2 0 (by decide)).1,
   (C4_terminal_rows ℕ ℕ).2.2.2 mdpInputC4 1 mdpModelC4 (by decide)
     ((1, 0), [(2, (1, 0))]) (by decide)⟩

section EncodingLemmas

variable {S : Type} [DecidableEq S]

lemma dictKeys_fineOfShared (inp : STSff S) :
    dictKeys (fineOfShared inp) = dictKeys inp := by
  simp [dictKeys, fineOfShared, List.map_map]

lemma dictGet_fineOfShared (inp : STSff S) (s : S) :
    dictGet (fineOfShared inp) s =
      (dictGet inp s).map (fun v => v.1.map fun q => (q.1, (q.2, v.2))) := by
  induction inp with
  | nil => rfl
  | cons p inp ih =>
    by_cases h : p.1 = s
    · simp [fineOfShared, dictGet, h]
    · simp only [fineOfShared, List.map_cons, dictGet] at ih ⊢
      simp [h, ih]

lemma mrpCheck_fineOfShared (inp : STSff S) (s : S) :
    mrpCheckF (fineOfShared inp) s = mrpCheckS inp s := by
  rw [mrpCheckF, mrpCheckS, dictGet_fineOfShared]
  rcases dictGet inp s with - | v
  · rfl
  · show (match dictGet (v.1.map (fun q => (q.1, (fun x : ℚ => (x, v.2)) q.2))) s
        with
      | some pr => decide (pr.1 = 1)
      | none => false) =
      decide (dictGetD v.1 s 0 = 1)
    have hmv := dictGet_map_value (fun x : ℚ => (x, v.2)) v.1 s
    rw [hmv]
    rcases hg : dictGet v.1 s with - | pr
    · simp [dictGetD, hg]
    · simp [dictGetD, hg]

lemma mrpCategorize_fineOfShared (inp : STSff S) :
    mrpCategorizeF (fineOfShared inp) = mrpCategorizeS inp := by
  rw [mrpCategorizeF, mrpCategorizeS, dictKeys_fineOfShared,
    mrpCategorizeWith_spec, mrpCategorizeWith_spec, Prod.mk.injEq]
  constructor
  · exact List.filter_congr (fun s _ => mrpCheck_fineOfShared inp s)
  · exact List.filter_congr (fun s _ => by rw [mrpCheck_fineOfShared inp s])

lemma stmRowF_fineOfShared (inp : STSff S) (s1 : S) :
    stmRowF (fineOfShared inp) s1 = stmRowS inp s1 := by
  rw [stmRowF, stmRowS, dictGetD, dictGetD, dictGet_fineOfShared]
  rcases dictGet inp s1 with - | v
  · rfl
  · simp [List.map_map, Function.comp_def]

lemma rmRowF_fineOfShared (inp : STSff S) (s1 : S) (v : List (S × ℚ) × ℚ)
    (hv : dictGet inp s1 = some v) :
    rmRowF (fineOfShared inp) s1 = (dictKeys v.1).map fun s2 => (s2, v.2) := by
  rw [rmRowF, dictGetD, dictGet_fineOfShared, hv]
  simp [dictKeys, List.map_map]

lemma mrpStmAssign_fineOfShared (inp : STSff S) (ntl : List S) :
    (mrpAssignF (fineOfShared inp) ntl).1 = (mrpAssignS inp ntl).1 := by
  rw [mrpAssignF_eq, mrpAssignS_eq]
  exact foldl_update_congr _ _ ntl
    (fun s1 _ => stmRowF_fineOfShared inp s1) []

lemma mrpNtl_fineOfShared (inp : STSff S) :
    mrpNtlF (fineOfShared inp) = mrpNtlS inp := by
  rw [mrpNtlF, mrpNtlS, mrpCategorize_fineOfShared]

lemma mrpStm_fineOfShared (inp : STSff S) :
    mrpStmF (fineOfShared inp) = mrpStmS inp := by
  rw [mrpStmF, mrpStmS, mrpNtl_fineOfShared]
  exact mrpStmAssign_fineOfShared inp (mrpNtlS inp)

lemma mrpRf_fineOfShared (inp : STSff S)
    (hdest : ∀ p ∈ inp, ∀ d ∈ dictKeys p.2.1, d ∈ dictKeys inp) :
    mrpRfF (fineOfShared inp) = mrpRfS inp := by
  have hntl := mrpNtl_fineOfShared inp
  have hstm := mrpStm_fineOfShared inp
  have hrmkeys : dictKeys (mrpRmF (fineOfShared inp)) =
      dictKeys (mrpRmS inp) := by
    rw [show mrpRmF (fineOfShared inp) =
      (mrpAssignF (fineOfShared inp) (mrpNtlF (fineOfShared inp))).2 from rfl,
      show mrpRmS inp = (mrpAssignS inp (mrpNtlS inp)).2 from rfl,
      mrpAssignF_eq, mrpAssignS_eq, hntl]
    exact dictKeys_foldl_update_val_indep _ _ (mrpNtlS inp) [] [] rfl
  rw [mrpRfF, mrpRfS, assignRewardFunction_eq, assignRewardFunction_eq, hstm,
    hrmkeys]
  apply foldl_update_congr
  intro cs hcs
  have hcs_ntl : cs ∈ mrpNtlS inp := by
    rw [show mrpRmS inp = (mrpAssignS inp (mrpNtlS inp)).2 from rfl,
      mrpAssignS_eq] at hcs
    exact (mem_mrpAssign_keys _ _ _).mp hcs
  have hcs_keys : cs ∈ dictKeys inp :=
    ((mem_mrpCategorizeWith_snd _ _ _).mp hcs_ntl).1
  rcases hv : dictGet inp cs with - | v
  · exact absurd hcs_keys ((dictGet_eq_none_iff inp cs).mp hv)
  · have hsrow : dictGetD (mrpStmS inp) cs [] = v.1 := by
      rw [show mrpStmS inp = (mrpAssignS inp (mrpNtlS inp)).1 from rfl,
        mrpAssignS_eq]
      rw [dictGetD, dictGet_foldl_update]
      simp [hcs_ntl, stmRowS, dictGetD, hv]
    have hrowF : dictGetD (mrpRmF (fineOfShared inp)) cs [] =
        (dictKeys v.1).map (fun s2 => (s2, v.2)) := by
      rw [show mrpRmF (fineOfShared inp) =
        (mrpAssignF (fineOfShared inp) (mrpNtlF (fineOfShared inp))).2 from rfl,
        mrpAssignF_eq, hntl]
      rw [dictGetD, dictGet_foldl_update]
      simp only [hcs_ntl, if_pos, Option.getD_some]
      exact rmRowF_fineOfShared inp cs v hv
    have hrowS : dictGetD (mrpRmS inp) cs [] =
        (dictKeys inp).map (fun s2 => (s2, v.2)) := by
      rw [show mrpRmS inp = (mrpAssignS inp (mrpNtlS inp)).2 from rfl,
        mrpAssignS_eq]
      rw [dictGetD, dictGet_foldl_update]
      simp [hcs_ntl, rmRowS, dictGetD, hv]
    have herSum : erSum (mrpStmS inp) (mrpRmF (fineOfShared inp)) cs =
        erSum (mrpStmS inp) (mrpRmS inp) cs := by
      simp only [erSum, hsrow, hrowF, hrowS]
      apply foldl_sum_congr
      intro q hq
      have hq1 : q.1 ∈ dictKeys v.1 := List.mem_map_of_mem _ hq
      have hq2 : q.1 ∈ dictKeys inp :=
        hdest (cs, v) (dictGet_mem inp cs v hv) q.1 hq1
      simp [dictGetD, dictGet_const, hq1, hq2]
    rw [herSum]

end EncodingLemmas

unseal Rat.mul Rat.add Rat.sub Rat.inv Rat.ofScientific in
/-- C5 counterexample: the same logical process fed in the two accepted
encodings yields different reward matrices — the fine-grained encoding
keys the reward row of source 1 by its destination 2, the shared-reward
encoding keys it by the declared source 1 — and consequently different
reward functions (5 vs 0: the shared row drops the reward mass sent to the
undeclared destination). -/
theorem C5_cex_reward_matrix_differs :
    fineOfShared mrpInputC5 = [(1, [(2, (1, 5))])] ∧
    mkMRP_F envC5cex (fineOfShared mrpInputC5) 1 = .ok mrpModelC5F ∧
    mkMRP_S envC5cex mrpInputC5 1 = .ok mrpModelC5S ∧
    mrpModelC5F.state_transition_matrix = mrpModelC5S.state_transition_matrix ∧
    mrpModelC5F.reward_matrix ≠ mrpModelC5S.reward_matrix ∧
    mrpModelC5F.value_function ≠ mrpModelC5S.value_function := by
  refine ⟨by decide, by decide, by decide, by decide, by decide, by decide⟩

/-- C5 (amended): feeding the same logical process in the two accepted
input encodings yields an identical state classification and an identical
state_transition_matrix; and — provided every destination referenced by a
non-terminal source is itself a declared source key — an identical
reward_function and an identical value_function (for any solver). The
reward_matrix itself generally differs: the shared-reward encoding keys
each reward row by the declared source states rather than by the row's
destinations. -/
theorem C5_encoding_agreement (S : Type) [DecidableEq S] (inp : STSff S)
    (γ : ℚ) :
    mrpCategorizeF (fineOfShared inp) = mrpCategorizeS inp ∧
    mrpStmF (fineOfShared inp) = mrpStmS inp ∧
    ((∀ p ∈ inp, ∀ d ∈ dictKeys p.2.1, d ∈ dictKeys inp) →
      mrpRfF (fineOfShared inp) = mrpRfS inp ∧
      ∀ env : SolveEnv,
        Except.map MRPModel.reward_function (mkMRP_F env (fineOfShared inp) γ) =
          Except.map MRPModel.reward_function (mkMRP_S env inp γ) ∧
        Except.map MRPModel.value_function (mkMRP_F env (fineOfShared inp) γ) =
          Except.map MRPModel.value_function (mkMRP_S env inp γ)) := by
  refine ⟨mrpCategorize_fineOfShared inp, mrpStm_fineOfShared inp, ?_⟩
  intro hdest
  have hrf := mrpRf_fineOfShared inp hdest
  refine ⟨hrf, ?_⟩
  intro env
  rw [mkMRP_F_eq, mkMRP_S_eq, mrpNtl_fineOfShared, mrpStm_fineOfShared, hrf]
  rcases assignValueFunction env γ (mrpNtlS inp) (mrpStmS inp) (mrpRfS inp)
    with e | r
  · exact ⟨rfl, rfl⟩
  · exact ⟨rfl, rfl⟩

unseal Rat.mul Rat.add Rat.sub Rat.inv Rat.ofScientific in
/-- Witness for C5 at a concrete input whose destinations are all declared
sources: the encodings agree on transition matrix, reward function and
value function. -/
theorem C5_witness :
    (∀ p ∈ mrpInputC5w, ∀ d ∈ dictKeys p.2.1, d ∈ dictKeys mrpInputC5w) ∧
    mrpStmF (fineOfShared mrpInputC5w) = mrpStmS mrpInputC5w ∧
    mrpRfF (fineOfShared mrpInputC5w) = mrpRfS mrpInputC5w ∧
    Except.map MRPModel.value_function
        (mkMRP_F envC5 (fineOfShared mrpInputC5w) 1) =
      Except.map MRPModel.value_function (mkMRP_S envC5 mrpInputC5w 1) :=
  ⟨by decide,
   (C5_encoding_agreement ℕ mrpInputC5w 1).2.1,
   ((C5_encoding_agreement ℕ mrpInputC5w 1).2.2 (by decide)).1,
   (((C5_encoding_agreement ℕ mrpInputC5w 1).2.2 (by decide)).2 envC5).2⟩
